import Mathlib

/-!
# nats-llm-studio: LM Studio client and NATS request handlers

A shallow embedding of `nats_llm_studio.go`.

* Go `string` and `[]byte` values are byte lists (`Bytes`).
* A Go `error` is the byte string its `Error()` method returns; `nil` is `none`.
* Everything outside the program (the LM Studio daemon, the `lms` tool, the
  file system, the NATS connection, and the parts of the Go standard library
  that build typed values from JSON text) is an oracle collected in `Env`.
  The file system content is explicit state (`FS`).
* Every call that leaves the program is recorded as an `Event`, in order.
* The parts of the Go standard library whose exact output the handlers
  depend on are modelled from the library: `strings.TrimRight`,
  `strings.SplitN`, `path/filepath.Clean` and `Join` (Unix), `url.PathEscape`,
  and from `encoding/json` the syntax scanner, `Compact` as applied to a
  `json.RawMessage`, and the string encoder.
* The nesting limit of `encoding/json` (`maxNestingDepth`, 10000) is a limit
  on the document `Marshal` writes: a raw message in the `data` map stands
  two levels deep in the envelope (`dataDepth`), and is accepted when its own
  nesting is at most 9998 (`checkValidAt`, `appendCompact_nestedArrays`).
* Contexts and timeouts are not modelled: an elapsed deadline shows up as an
  error returned by the oracle that was running.
* Loops of the library whose Go form advances an index by more than one byte
  (`Clean`, the string encoder) run on fuel; the fuel they are given is the
  length of the input, which is shown to be enough (`cleanLoop_fuel`,
  `cleanLoop_eq_cleanElems`, `appendStringLoop_fuel_succ`).
-/

namespace NatsLLMStudio

/-! ## Byte strings -/

/-- Go `string` and `[]byte` values. -/
abbrev Bytes := List UInt8

/-- The bytes of a Go string literal (Go source text is UTF-8). -/
def utf8 (s : String) : Bytes := s.data.flatMap String.utf8EncodeChar

/-- The byte of an ASCII character literal. -/
def ch (c : Char) : UInt8 := c.toNat.toUInt8

/-- Go slice expression `src[lo:hi]`. -/
def slice (src : Bytes) (lo hi : Nat) : Bytes := (src.drop lo).take (hi - lo)

/-- Go string comparison `a < b` (bytewise lexicographic). -/
def bytesLt : Bytes → Bytes → Bool
  | [], [] => false
  | [], _ :: _ => true
  | _ :: _, [] => false
  | a :: as, b :: bs => if a < b then true else if b < a then false else bytesLt as bs

/-- Decimal text of a non-negative `int`, as `%d` and `strconv` print it. -/
def itoa (n : Nat) : Bytes := utf8 (toString n)

/-! ## package strings -/

/-- Go `strings.TrimRight(s, "/")`: drop every trailing slash. -/
def trimRightSlash (s : Bytes) : Bytes := s.rdropWhile (fun b => b == ch '/')

/-- Go `strings.SplitN(s, "/", 2)`: at most two pieces, cut at the first slash.
The empty string gives the single piece `""`. -/
def splitN2 (s : Bytes) : List Bytes :=
  match s.dropWhile (fun b => b != ch '/') with
  | [] => [s]
  | _ :: after => [s.takeWhile (fun b => b != ch '/'), after]

/-- Go `strings.Join(elems, "/")`. -/
def joinSlash : List Bytes → Bytes
  | [] => []
  | [e] => e
  | e :: es => e ++ ch '/' :: joinSlash es

/-! ## package path/filepath (Unix) -/

/-- Go `os.IsPathSeparator` on Unix. -/
def isPathSeparator (b : UInt8) : Bool := b == ch '/'

/-- The backtracking of `Clean` at a `..` element. The output buffer is held
reversed, so that its head is the byte at index `w-1`; the Go code does
`out.w--` and then keeps decrementing while `out.w > dotdot` and the byte at
`out.w` is not a separator. -/
def cleanBacktrack (dotdot : Nat) : Bytes → Bytes
  | [] => []
  | b :: out => if out.length > dotdot && !isPathSeparator b then cleanBacktrack dotdot out else out

/-- The main loop of `filepath.Clean`: `rest` is `path[r:]`, `out` the output
written so far (reversed), `dotdot` the index up to which the output may not be
backtracked. Every iteration consumes at least one byte, so `rest.length`
iterations of `fuel` are enough (`Clean` supplies them). -/
def cleanLoop (rooted : Bool) : Nat → Bytes → Bytes → Nat → Bytes
  | 0, _, out, _ => out
  | _ + 1, [], out, _ => out
  | fuel + 1, b :: rest, out, dotdot =>
    if isPathSeparator b then
      -- empty path element
      cleanLoop rooted fuel rest out dotdot
    else if b == ch '.' && (rest.isEmpty || isPathSeparator (rest.headD 0)) then
      -- . element
      cleanLoop rooted fuel rest out dotdot
    else if b == ch '.' && rest.headD 0 == ch '.' &&
        ((rest.drop 1).isEmpty || isPathSeparator ((rest.drop 1).headD 0)) then
      -- .. element: remove to last separator
      if out.length > dotdot then
        cleanLoop rooted fuel (rest.drop 1) (cleanBacktrack dotdot out) dotdot
      else if !rooted then
        let out1 := if out.length > 0 then ch '/' :: out else out
        let out2 := ch '.' :: ch '.' :: out1
        cleanLoop rooted fuel (rest.drop 1) out2 out2.length
      else
        cleanLoop rooted fuel (rest.drop 1) out dotdot
    else
      -- real path element: add slash if needed, then copy the element
      let out1 := if (rooted && out.length != 1) || (!rooted && out.length != 0)
        then ch '/' :: out else out
      let elem := (b :: rest).takeWhile (fun x => !isPathSeparator x)
      cleanLoop rooted fuel ((b :: rest).dropWhile (fun x => !isPathSeparator x))
        (elem.reverse ++ out1) dotdot

/-- Go `filepath.Clean` on Unix (no volume names, separator `/`). -/
def Clean (path : Bytes) : Bytes :=
  match path with
  | [] => utf8 "."
  | b :: _ =>
    let rooted := isPathSeparator b
    let out :=
      if rooted then cleanLoop rooted path.length (path.drop 1) [ch '/'] 1
      else cleanLoop rooted path.length path [] 0
    if out.length == 0 then utf8 "." else out.reverse

/-- Go `filepath.Join` on Unix: leading empty elements are skipped, the rest is
joined with `/` and cleaned; all elements empty gives `""`. -/
def Join : List Bytes → Bytes
  | [] => []
  | e :: es => if e != [] then Clean (joinSlash (e :: es)) else Join es

/-! ## package net/url -/

/-- Go `url.shouldEscape(c, encodePathSegment)`. -/
def shouldEscape (c : UInt8) : Bool :=
  if (ch 'a' ≤ c && c ≤ ch 'z') || (ch 'A' ≤ c && c ≤ ch 'Z') || (ch '0' ≤ c && c ≤ ch '9') then
    false
  else if c == ch '-' || c == ch '_' || c == ch '.' || c == ch '~' then false
  else if c == ch '$' || c == ch '&' || c == ch '+' || c == ch ':' || c == ch '=' ||
      c == ch '@' then
    false
  else true

/-- The digits `"0123456789ABCDEF"` of `net/url`. -/
def upperhex (n : Nat) : UInt8 := (utf8 "0123456789ABCDEF").getD n 0

/-- Go `url.PathEscape`. -/
def PathEscape : Bytes → Bytes
  | [] => []
  | c :: s =>
    if shouldEscape c then
      ch '%' :: upperhex (c >>> 4).toNat :: upperhex (c &&& 15).toNat :: PathEscape s
    else c :: PathEscape s

/-! ## package encoding/json: the syntax scanner -/

/-- Scanner opcode `scanContinue`. -/
def scanContinue : Nat := 0
/-- Scanner opcode `scanBeginLiteral`. -/
def scanBeginLiteral : Nat := 1
/-- Scanner opcode `scanBeginObject`. -/
def scanBeginObject : Nat := 2
/-- Scanner opcode `scanObjectKey`. -/
def scanObjectKey : Nat := 3
/-- Scanner opcode `scanObjectValue`. -/
def scanObjectValue : Nat := 4
/-- Scanner opcode `scanEndObject`. -/
def scanEndObject : Nat := 5
/-- Scanner opcode `scanBeginArray`. -/
def scanBeginArray : Nat := 6
/-- Scanner opcode `scanArrayValue`. -/
def scanArrayValue : Nat := 7
/-- Scanner opcode `scanEndArray`. -/
def scanEndArray : Nat := 8
/-- Scanner opcode `scanSkipSpace`: the last "continue" result. -/
def scanSkipSpace : Nat := 9
/-- Scanner opcode `scanEnd`: the first "stop" result. -/
def scanEnd : Nat := 10
/-- Scanner opcode `scanError`. -/
def scanError : Nat := 11

/-- Entries of the scanner's `parseState` stack. -/
inductive ParseState
  | parseObjectKey
  | parseObjectValue
  | parseArrayValue
  deriving DecidableEq, Repr

/-- The value of the scanner's `step` field: which state function runs next. -/
inductive Step
  | stateBeginValueOrEmpty | stateBeginValue | stateBeginStringOrEmpty | stateBeginString
  | stateEndValue | stateEndTop
  | stateInString | stateInStringEsc
  | stateInStringEscU | stateInStringEscU1 | stateInStringEscU12 | stateInStringEscU123
  | stateNeg | state1 | state0 | stateDot | stateDot0 | stateE | stateESign | stateE0
  | stateT | stateTr | stateTru | stateF | stateFa | stateFal | stateFals
  | stateN | stateNu | stateNul
  | stateError
  deriving DecidableEq, Repr

/-- The `scanner` of encoding/json. `parseState` is held with the innermost
entry first. `err` records that `s.err` is set; the text of the error is not
modelled. `depth` is the number of objects and arrays of the document that are
open around the text being scanned: `0` for a text scanned on its own, as
`Unmarshal` scans its input; when `Marshal` writes a raw message into a
document, the objects and arrays it has open around it. -/
structure Scanner where
  step : Step
  endTop : Bool
  parseState : List ParseState
  err : Bool
  depth : Nat
  deriving DecidableEq, Repr

/-- Go `maxNestingDepth`. -/
def maxNestingDepth : Nat := 10000

/-- Go `scanner.reset`, for a text that stands `depth` levels deep. -/
def Scanner.reset (depth : Nat) : Scanner := ⟨.stateBeginValue, false, [], false, depth⟩

/-- Go `isSpace`. -/
def isSpace (c : UInt8) : Bool :=
  c ≤ ch ' ' && (c == ch ' ' || c == ch '\t' || c == ch '\r' || c == ch '\n')

/-- Go `scanner.error`: record an error and kill the scanner. -/
def Scanner.error (s : Scanner) : Nat × Scanner :=
  (scanError, { s with step := .stateError, err := true })

/-- Go `scanner.pushParseState`. The limit `maxNestingDepth` is on the nesting
of the document: the objects and arrays open around the scanned text count
with those of the text itself. -/
def Scanner.pushParseState (s : Scanner) (newParseState : ParseState) (successState : Nat) :
    Nat × Scanner :=
  let s1 := { s with parseState := newParseState :: s.parseState }
  if s1.parseState.length + s.depth ≤ maxNestingDepth then (successState, s1) else s1.error

/-- Go `scanner.popParseState`. -/
def Scanner.popParseState (s : Scanner) : Scanner :=
  let ps := s.parseState.drop 1
  if ps.length == 0 then { s with parseState := ps, step := .stateEndTop, endTop := true }
  else { s with parseState := ps, step := .stateEndValue }

/-- Go `stateEndTop`. -/
def stateEndTop (s : Scanner) (c : UInt8) : Nat × Scanner :=
  if !isSpace c then (scanEnd, s.error.2) else (scanEnd, s)

/-- Go `stateEndValue`. -/
def stateEndValue (s : Scanner) (c : UInt8) : Nat × Scanner :=
  match s.parseState with
  | [] => stateEndTop { s with step := .stateEndTop, endTop := true } c
  | ps :: below =>
    if isSpace c then (scanSkipSpace, { s with step := .stateEndValue })
    else match ps with
      | .parseObjectKey =>
        if c == ch ':' then
          (scanObjectKey,
            { s with parseState := .parseObjectValue :: below, step := .stateBeginValue })
        else s.error
      | .parseObjectValue =>
        if c == ch ',' then
          (scanObjectValue,
            { s with parseState := .parseObjectKey :: below, step := .stateBeginString })
        else if c == ch '}' then (scanEndObject, s.popParseState)
        else s.error
      | .parseArrayValue =>
        if c == ch ',' then (scanArrayValue, { s with step := .stateBeginValue })
        else if c == ch ']' then (scanEndArray, s.popParseState)
        else s.error

/-- Go `stateBeginValue`. -/
def stateBeginValue (s : Scanner) (c : UInt8) : Nat × Scanner :=
  if isSpace c then (scanSkipSpace, s)
  else if c == ch '{' then
    { s with step := .stateBeginStringOrEmpty }.pushParseState .parseObjectKey scanBeginObject
  else if c == ch '[' then
    { s with step := .stateBeginValueOrEmpty }.pushParseState .parseArrayValue scanBeginArray
  else if c == ch '"' then (scanBeginLiteral, { s with step := .stateInString })
  else if c == ch '-' then (scanBeginLiteral, { s with step := .stateNeg })
  else if c == ch '0' then (scanBeginLiteral, { s with step := .state0 })
  else if c == ch 't' then (scanBeginLiteral, { s with step := .stateT })
  else if c == ch 'f' then (scanBeginLiteral, { s with step := .stateF })
  else if c == ch 'n' then (scanBeginLiteral, { s with step := .stateN })
  else if ch '1' ≤ c && c ≤ ch '9' then (scanBeginLiteral, { s with step := .state1 })
  else s.error

/-- Go `stateBeginValueOrEmpty`. -/
def stateBeginValueOrEmpty (s : Scanner) (c : UInt8) : Nat × Scanner :=
  if isSpace c then (scanSkipSpace, s)
  else if c == ch ']' then stateEndValue s c
  else stateBeginValue s c

/-- Go `stateBeginString`. -/
def stateBeginString (s : Scanner) (c : UInt8) : Nat × Scanner :=
  if isSpace c then (scanSkipSpace, s)
  else if c == ch '"' then (scanBeginLiteral, { s with step := .stateInString })
  else s.error

/-- Go `stateBeginStringOrEmpty`. -/
def stateBeginStringOrEmpty (s : Scanner) (c : UInt8) : Nat × Scanner :=
  if isSpace c then (scanSkipSpace, s)
  else if c == ch '}' then
    stateEndValue { s with parseState := .parseObjectValue :: s.parseState.drop 1 } c
  else stateBeginString s c

/-- Go `stateInString`. -/
def stateInString (s : Scanner) (c : UInt8) : Nat × Scanner :=
  if c == ch '"' then (scanContinue, { s with step := .stateEndValue })
  else if c == ch '\\' then (scanContinue, { s with step := .stateInStringEsc })
  else if c < 0x20 then s.error
  else (scanContinue, s)

/-- Go `stateInStringEsc`. -/
def stateInStringEsc (s : Scanner) (c : UInt8) : Nat × Scanner :=
  if c == ch 'b' || c == ch 'f' || c == ch 'n' || c == ch 'r' || c == ch 't' ||
      c == ch '\\' || c == ch '/' || c == ch '"' then
    (scanContinue, { s with step := .stateInString })
  else if c == ch 'u' then (scanContinue, { s with step := .stateInStringEscU })
  else s.error

/-- The hexadecimal digit test shared by the four `stateInStringEscU...` functions. -/
def isHexDigit (c : UInt8) : Bool :=
  (ch '0' ≤ c && c ≤ ch '9') || (ch 'a' ≤ c && c ≤ ch 'f') || (ch 'A' ≤ c && c ≤ ch 'F')

/-- Go `stateInStringEscU`, `...U1`, `...U12`, `...U123`: on a hexadecimal digit move to `next`. -/
def stateInStringEscUx (next : Step) (s : Scanner) (c : UInt8) : Nat × Scanner :=
  if isHexDigit c then (scanContinue, { s with step := next }) else s.error

/-- The decimal digit test `'0' <= c && c <= '9'`. -/
def isDigit (c : UInt8) : Bool := ch '0' ≤ c && c ≤ ch '9'

/-- Go `stateNeg`. -/
def stateNeg (s : Scanner) (c : UInt8) : Nat × Scanner :=
  if c == ch '0' then (scanContinue, { s with step := .state0 })
  else if ch '1' ≤ c && c ≤ ch '9' then (scanContinue, { s with step := .state1 })
  else s.error

/-- Go `state0`. -/
def state0 (s : Scanner) (c : UInt8) : Nat × Scanner :=
  if c == ch '.' then (scanContinue, { s with step := .stateDot })
  else if c == ch 'e' || c == ch 'E' then (scanContinue, { s with step := .stateE })
  else stateEndValue s c

/-- Go `state1`. -/
def state1 (s : Scanner) (c : UInt8) : Nat × Scanner :=
  if isDigit c then (scanContinue, { s with step := .state1 }) else state0 s c

/-- Go `stateDot`. -/
def stateDot (s : Scanner) (c : UInt8) : Nat × Scanner :=
  if isDigit c then (scanContinue, { s with step := .stateDot0 }) else s.error

/-- Go `stateDot0`. -/
def stateDot0 (s : Scanner) (c : UInt8) : Nat × Scanner :=
  if isDigit c then (scanContinue, s)
  else if c == ch 'e' || c == ch 'E' then (scanContinue, { s with step := .stateE })
  else stateEndValue s c

/-- Go `stateESign`. -/
def stateESign (s : Scanner) (c : UInt8) : Nat × Scanner :=
  if isDigit c then (scanContinue, { s with step := .stateE0 }) else s.error

/-- Go `stateE`. -/
def stateE (s : Scanner) (c : UInt8) : Nat × Scanner :=
  if c == ch '+' || c == ch '-' then (scanContinue, { s with step := .stateESign })
  else stateESign s c

/-- Go `stateE0`. -/
def stateE0 (s : Scanner) (c : UInt8) : Nat × Scanner :=
  if isDigit c then (scanContinue, s) else stateEndValue s c

/-- Go `stateT`, `stateTr`, `stateF`, ..., `stateNu`: inside a keyword, expecting
the byte `want` and then moving to `next`. -/
def stateKeyword (want : UInt8) (next : Step) (s : Scanner) (c : UInt8) : Nat × Scanner :=
  if c == want then (scanContinue, { s with step := next }) else s.error

/-- Call of the state function held in `s.step`: Go `s.step(s, c)`. -/
def Scanner.run (s : Scanner) (c : UInt8) : Nat × Scanner :=
  match s.step with
  | .stateBeginValueOrEmpty => stateBeginValueOrEmpty s c
  | .stateBeginValue => stateBeginValue s c
  | .stateBeginStringOrEmpty => stateBeginStringOrEmpty s c
  | .stateBeginString => stateBeginString s c
  | .stateEndValue => stateEndValue s c
  | .stateEndTop => stateEndTop s c
  | .stateInString => stateInString s c
  | .stateInStringEsc => stateInStringEsc s c
  | .stateInStringEscU => stateInStringEscUx .stateInStringEscU1 s c
  | .stateInStringEscU1 => stateInStringEscUx .stateInStringEscU12 s c
  | .stateInStringEscU12 => stateInStringEscUx .stateInStringEscU123 s c
  | .stateInStringEscU123 => stateInStringEscUx .stateInString s c
  | .stateNeg => stateNeg s c
  | .state1 => state1 s c
  | .state0 => state0 s c
  | .stateDot => stateDot s c
  | .stateDot0 => stateDot0 s c
  | .stateE => stateE s c
  | .stateESign => stateESign s c
  | .stateE0 => stateE0 s c
  | .stateT => stateKeyword (ch 'r') .stateTr s c
  | .stateTr => stateKeyword (ch 'u') .stateTru s c
  | .stateTru => stateKeyword (ch 'e') .stateEndValue s c
  | .stateF => stateKeyword (ch 'a') .stateFa s c
  | .stateFa => stateKeyword (ch 'l') .stateFal s c
  | .stateFal => stateKeyword (ch 's') .stateFals s c
  | .stateFals => stateKeyword (ch 'e') .stateEndValue s c
  | .stateN => stateKeyword (ch 'u') .stateNu s c
  | .stateNu => stateKeyword (ch 'l') .stateNul s c
  | .stateNul => stateKeyword (ch 'l') .stateEndValue s c
  | .stateError => (scanError, s)

/-- Go `scanner.eof`. -/
def Scanner.eof (s : Scanner) : Nat × Scanner :=
  if s.err then (scanError, s)
  else if s.endTop then (scanEnd, s)
  else
    let s1 := (s.run (ch ' ')).2
    if s1.endTop then (scanEnd, s1)
    else (scanError, { s1 with err := true })

/-- The loop of Go `checkValid`: feed the bytes to the scanner until one is rejected. -/
def checkValidLoop : Bytes → Scanner → Bool × Scanner
  | [], scan => (true, scan)
  | c :: data, scan =>
    let r := scan.run c
    if r.1 == scanError then (false, r.2) else checkValidLoop data r.2

/-- The check of Go `checkValid` on a text that stands `depth` levels deep in
a document: `true` when `data` is one well-formed JSON value that, where it
stands, keeps the document within `maxNestingDepth`. -/
def checkValidAt (depth : Nat) (data : Bytes) : Bool :=
  let r := checkValidLoop data (Scanner.reset depth)
  r.1 && r.2.eof.1 != scanError

/-- Go `checkValid`: `true` when `data` is one well-formed JSON value (the Go
function returns `nil`), `false` when it returns a `SyntaxError`. -/
def checkValid (data : Bytes) : Bool := checkValidAt 0 data

/-! ## package encoding/json: Compact, as `Marshal` applies it to a RawMessage -/

/-- The digits `"0123456789abcdef"` of encoding/json. -/
def hex (n : Nat) : UInt8 := (utf8 "0123456789abcdef").getD n 0

/-- State of the loop of `appendCompact`: the output, the index `start` from
which source bytes are still to be copied, and the scanner. -/
structure CompactState where
  dst : Bytes
  start : Nat
  scan : Scanner

/-- The head of the loop body of Go `appendCompact`: the escaping of `<`, `>`,
`&` and of U+2028, U+2029, for the byte `c` at index `i`, with `rest` the bytes
after it. -/
def compactEscape (src : Bytes) (escape : Bool) (c : UInt8) (rest : Bytes) (i : Nat)
    (st : CompactState) : CompactState :=
  let st1 : CompactState :=
    if escape && (c == ch '<' || c == ch '>' || c == ch '&') then
      { st with
        dst := (if st.start < i then st.dst ++ slice src st.start i else st.dst) ++
          utf8 "\\u00" ++ [hex (c >>> 4).toNat, hex (c &&& 0xF).toNat]
        start := i + 1 }
    else st
  -- Convert U+2028 and U+2029 (E2 80 A8 and E2 80 A9).
  if escape && c == 0xE2 && decide (i + 2 < src.length) && rest.headD 0 == 0x80 &&
      (rest.drop 1).headD 0 &&& 0xFE == 0xA8 then
    { st1 with
      dst := (if st1.start < i then st1.dst ++ slice src st1.start i else st1.dst) ++
        utf8 "\\u202" ++ [hex ((rest.drop 1).headD 0 &&& 0xF).toNat]
      start := i + 3 }
  else st1

/-- The `for i, c := range src` loop of Go `appendCompact(dst, src, escape)`;
`rest` is `src[i:]`. A `scanError` leaves the loop (`break`). -/
def compactLoop (src : Bytes) (escape : Bool) : Bytes → Nat → CompactState → CompactState
  | [], _, st => st
  | c :: rest, i, st =>
    let st2 := compactEscape src escape c rest i st
    let r := st2.scan.run c
    if r.1 ≥ scanSkipSpace then
      if r.1 == scanError then { st2 with scan := r.2 }
      else
        compactLoop src escape rest (i + 1)
          { dst := if st2.start < i then st2.dst ++ slice src st2.start i else st2.dst
            start := i + 1
            scan := r.2 }
    else compactLoop src escape rest (i + 1) { st2 with scan := r.2 }

/-- Go `appendCompact(nil, src, escape)` for a text that `Marshal` writes
`depth` levels deep into a document: the compacted text, or `none` when the
scanner rejects `src`, be it for its syntax or because the document would nest
deeper than `maxNestingDepth`. -/
def appendCompact (src : Bytes) (escape : Bool) (depth : Nat) : Option Bytes :=
  let st := compactLoop src escape src 0 ⟨[], 0, Scanner.reset depth⟩
  if st.scan.eof.1 == scanError then none
  else some (st.dst ++ src.drop st.start)

/-! ## package encoding/json: the string encoder -/

/-- Continuation byte test of UTF-8 (`0x80 ≤ b ≤ 0xBF`). -/
def isCont (b : UInt8) : Bool := 0x80 ≤ b && b ≤ 0xBF

/-- Width of the UTF-8 sequence at the head of `s` as Go `utf8.DecodeRune`
reports it, for a head byte of 0x80 or more; `0` stands for the result
`(RuneError, 1)` of an ill-formed sequence. -/
def runeWidth (s : Bytes) : Nat :=
  match s with
  | [] => 0
  | b0 :: r =>
    let b1 := r.headD 0
    let b2 := (r.drop 1).headD 0
    let b3 := (r.drop 2).headD 0
    if 0xC2 ≤ b0 && b0 ≤ 0xDF then (if isCont b1 then 2 else 0)
    else if b0 == 0xE0 then (if 0xA0 ≤ b1 && b1 ≤ 0xBF && isCont b2 then 3 else 0)
    else if (0xE1 ≤ b0 && b0 ≤ 0xEC) || b0 == 0xEE || b0 == 0xEF then
      (if isCont b1 && isCont b2 then 3 else 0)
    else if b0 == 0xED then (if 0x80 ≤ b1 && b1 ≤ 0x9F && isCont b2 then 3 else 0)
    else if b0 == 0xF0 then (if 0x90 ≤ b1 && b1 ≤ 0xBF && isCont b2 && isCont b3 then 4 else 0)
    else if 0xF1 ≤ b0 && b0 ≤ 0xF3 then (if isCont b1 && isCont b2 && isCont b3 then 4 else 0)
    else if b0 == 0xF4 then (if 0x80 ≤ b1 && b1 ≤ 0x8F && isCont b2 && isCont b3 then 4 else 0)
    else 0

/-- Go `htmlSafeSet`: the ASCII bytes the encoder copies unchanged. -/
def htmlSafeSet (b : UInt8) : Bool :=
  0x20 ≤ b && b ≤ 0x7F && b != ch '"' && b != ch '&' && b != ch '<' && b != ch '>' &&
    b != ch '\\'

/-- The body of Go `appendString(dst, src, escapeHTML = true)` between the two
quotes. Every iteration consumes at least one byte; `fuel` counts iterations. -/
def appendStringLoop : Nat → Bytes → Bytes
  | 0, _ => []
  | _ + 1, [] => []
  | fuel + 1, b :: src =>
    if b < 0x80 then
      if htmlSafeSet b then b :: appendStringLoop fuel src
      else if b == ch '\\' || b == ch '"' then ch '\\' :: b :: appendStringLoop fuel src
      else if b == 0x08 then utf8 "\\b" ++ appendStringLoop fuel src
      else if b == 0x0C then utf8 "\\f" ++ appendStringLoop fuel src
      else if b == ch '\n' then utf8 "\\n" ++ appendStringLoop fuel src
      else if b == ch '\r' then utf8 "\\r" ++ appendStringLoop fuel src
      else if b == ch '\t' then utf8 "\\t" ++ appendStringLoop fuel src
      else
        utf8 "\\u00" ++ [hex (b >>> 4).toNat, hex (b &&& 0xF).toNat] ++ appendStringLoop fuel src
    else
      let size := runeWidth (b :: src)
      if size == 0 then utf8 "\\ufffd" ++ appendStringLoop fuel src
      else if b == 0xE2 && src.headD 0 == 0x80 &&
          ((src.drop 1).headD 0 == 0xA8 || (src.drop 1).headD 0 == 0xA9) then
        utf8 "\\u202" ++ [hex ((src.drop 1).headD 0 &&& 0xF).toNat] ++
          appendStringLoop fuel (src.drop 2)
      else (b :: src).take size ++ appendStringLoop fuel ((b :: src).drop size)

/-- Go `appendString(nil, src, true)`: `src` as a quoted JSON string. -/
def appendString (src : Bytes) : Bytes :=
  ch '"' :: appendStringLoop src.length src ++ [ch '"']

/-! ## The outside world -/

/-- Go `ModelInfo`. -/
structure ModelInfo where
  ID : Bytes
  Publisher : Bytes
  deriving DecidableEq, Repr

/-- Go `PullModelRequest`. -/
structure PullModelRequest where
  Identifier : Bytes
  deriving DecidableEq, Repr

/-- Go `DeleteModelRequest`. -/
structure DeleteModelRequest where
  ModelID : Bytes
  deriving DecidableEq, Repr

/-- The anonymous struct `tmp` of `OnChatModel`. -/
structure ChatModelHead where
  Model : Bytes
  deriving DecidableEq, Repr

/-- What `http.Client.Do` hands back when the round trip worked: the status
code and the body stream, which delivers `Body` and then either ends or fails
with `ReadErr`. -/
structure HTTPResponse where
  StatusCode : Nat
  Body : Bytes
  ReadErr : Option Bytes
  deriving DecidableEq, Repr

/-- Behaviour of everything the program calls but does not define. Errors are
given by their text. -/
structure Env where
  /-- Text of the error of `http.NewRequestWithContext` for this method and URL, if it fails. -/
  newRequestErr : Bytes → Bytes → Option Bytes
  /-- Result of `c.HTTP.Do` for a request with this method, URL and body. -/
  httpDo : Bytes → Bytes → Bytes → Except Bytes HTTPResponse
  /-- Result of `cmd.CombinedOutput()` for `lms` run with these arguments: output and error. -/
  combinedOutput : List Bytes → Bytes × Option Bytes
  /-- Text of the failure of `os.Stat` on a path, when it fails for a reason other than absence. -/
  statErr : Bytes → Option Bytes
  /-- Text of the failure of `os.RemoveAll` on a path, when the removal fails. -/
  removeAllErr : Bytes → Option Bytes
  /-- Text of the failure of `msg.Respond` for these reply bytes, if it fails. -/
  respondErr : Bytes → Option Bytes
  /-- Text of the `SyntaxError` that encoding/json reports for an input its scanner rejects. -/
  syntaxErrorText : Bytes → Bytes
  /-- Text of the error of `json.Marshal` for a raw message that is not well-formed JSON. -/
  marshalerErrorText : Bytes → Bytes
  /-- Decoding of syntactically valid JSON text into a `PullModelRequest`. -/
  decodePullModelRequest : Bytes → Except Bytes PullModelRequest
  /-- Decoding of syntactically valid JSON text into a `DeleteModelRequest`. -/
  decodeDeleteModelRequest : Bytes → Except Bytes DeleteModelRequest
  /-- Decoding of syntactically valid JSON text into the `tmp` struct of `OnChatModel`. -/
  decodeChatModelHead : Bytes → Except Bytes ChatModelHead
  /-- Result of `json.NewDecoder(resp.Body).Decode(&info)` on a body stream. -/
  decodeModelInfo : Bytes → Option Bytes → Except Bytes ModelInfo

/-- The file system: which path names denote an existing entry. -/
abbrev FS := Bytes → Bool

/-- A call that leaves the program. -/
inductive Event
  | exec (name : Bytes) (args : List Bytes)
  | httpDo (method url body : Bytes)
  | stat (path : Bytes)
  | removeAll (path : Bytes)
  | respond (data : Bytes)
  | log (line : Bytes)
  deriving DecidableEq, Repr

/-- Go `json.Unmarshal(data, &v)`: the syntax check of `checkValid`, then the
decoding into the target type. -/
def jsonUnmarshal {α : Type} (env : Env) (decode : Bytes → Except Bytes α) (data : Bytes) :
    Except Bytes α :=
  if checkValid data then decode data else .error (env.syntaxErrorText data)

/-- Outcome of `os.Stat` as far as `DeleteModel` looks at it. -/
inductive StatError
  | notExist
  | other (msg : Bytes)
  deriving DecidableEq, Repr

/-- Go `os.Stat(name)`, keeping only the error. -/
def osStat (env : Env) (files : FS) (name : Bytes) : Option StatError :=
  match env.statErr name with
  | some e => some (.other e)
  | none => if files name then none else some .notExist

/-- Whether `p` names `dir` or something below it. -/
def isUnder (dir p : Bytes) : Bool :=
  p == dir || (if dir.getLast? == some (ch '/') then dir else dir ++ [ch '/']).isPrefixOf p

/-- Go `endsWithDot` of package os. -/
def endsWithDot (path : Bytes) : Bool :=
  path == utf8 "." || (path.length ≥ 2 && path.reverse.take 2 == [ch '.', ch '/'])

/-- Go `os.RemoveAll(path)`: the error and the file system afterwards. A
removal that fails is taken to leave the file system as it was. -/
def osRemoveAll (env : Env) (files : FS) (path : Bytes) : Option Bytes × FS :=
  if path == [] then (none, files)
  else if endsWithDot path then
    (some (utf8 "RemoveAll " ++ path ++ utf8 ": invalid argument"), files)
  else match env.removeAllErr path with
    | some e => (some e, files)
    | none => (none, fun p => files p && !isUnder path p)

/-! ## LMStudioClient -/

/-- Go `LMStudioClient` (the `HTTP` field is part of `Env`). -/
structure LMStudioClient where
  BaseURL : Bytes
  ModelsDir : Bytes
  deriving DecidableEq, Repr

/-- Go `NewLMStudioClient`. -/
def NewLMStudioClient (baseUrl modelsDir : Bytes) : LMStudioClient :=
  { BaseURL := trimRightSlash baseUrl, ModelsDir := trimRightSlash modelsDir }

/-- Result of `PullModel`: the output, the error, and the calls made. -/
structure PullResult where
  out : Bytes
  err : Option Bytes
  events : List Event

/-- Go `(*LMStudioClient).PullModel`. -/
def PullModel (env : Env) (identifier : Bytes) : PullResult :=
  if identifier == [] then ⟨[], some (utf8 "identifier is empty"), []⟩
  else
    let args := [utf8 "get", identifier]
    let r := env.combinedOutput args
    match r.2 with
    | some e =>
      ⟨r.1, some (utf8 "failed to execute 'lms get " ++ identifier ++ utf8 "': " ++ e),
        [.exec (utf8 "lms") args]⟩
    | none => ⟨r.1, none, [.exec (utf8 "lms") args]⟩

/-- Result of `getModelInfo`: the info or the error, the status, and the calls made. -/
structure InfoResult where
  info : Except Bytes ModelInfo
  status : Nat
  events : List Event

/-- Go `(*LMStudioClient).getModelInfo`. -/
def getModelInfo (env : Env) (c : LMStudioClient) (modelID : Bytes) : InfoResult :=
  let endpoint := c.BaseURL ++ utf8 "/api/v0/models/" ++ PathEscape modelID
  match env.newRequestErr (utf8 "GET") endpoint with
  | some e => ⟨.error (utf8 "error creating request for getModelInfo: " ++ e), 0, []⟩
  | none =>
    match env.httpDo (utf8 "GET") endpoint [] with
    | .error e =>
      ⟨.error (utf8 "error calling LM Studio: " ++ e), 0, [.httpDo (utf8 "GET") endpoint []]⟩
    | .ok resp =>
      if resp.StatusCode != 200 then
        ⟨.error (utf8 "LM Studio returned " ++ itoa resp.StatusCode ++ utf8 ": " ++ resp.Body),
          resp.StatusCode, [.httpDo (utf8 "GET") endpoint []]⟩
      else
        match env.decodeModelInfo resp.Body resp.ReadErr with
        | .error e =>
          ⟨.error (utf8 "error decoding model response: " ++ e), resp.StatusCode,
            [.httpDo (utf8 "GET") endpoint []]⟩
        | .ok info => ⟨.ok info, resp.StatusCode, [.httpDo (utf8 "GET") endpoint []]⟩

/-- Go `(*LMStudioClient).unloadModel`: the calls made. -/
def unloadModel (env : Env) (modelID : Bytes) : List Event :=
  if modelID == [] then []
  else
    let args := [utf8 "unload", modelID]
    let r := env.combinedOutput args
    match r.2 with
    | some e =>
      [.exec (utf8 "lms") args,
        .log (utf8 "warning: failed to unload model " ++ modelID ++ utf8 ": " ++ e ++
          utf8 " | output: " ++ r.1)]
    | none => [.exec (utf8 "lms") args]

/-- Result of `DeleteModel`: the directory, the error, the file system
afterwards, and the calls made. -/
structure DeleteResult where
  dir : Bytes
  err : Option Bytes
  files : FS
  events : List Event

/-- Go `(*LMStudioClient).DeleteModel`. -/
def DeleteModel (env : Env) (c : LMStudioClient) (files : FS) (modelID : Bytes) : DeleteResult :=
  if modelID == [] then ⟨[], some (utf8 "modelID is empty"), files, []⟩
  else
    let ev1 := unloadModel env modelID
    let r := getModelInfo env c modelID
    match r.info with
    | .error e => ⟨[], some e, files, ev1 ++ r.events⟩
    | .ok info =>
      let parts := splitN2 info.ID
      if info.Publisher == [] && parts.length != 2 then
        ⟨[], some (utf8 "unable to determine publisher of model " ++ info.ID), files,
          ev1 ++ r.events⟩
      else
        let publisher := if info.Publisher == [] then parts.headD [] else info.Publisher
        let dir := Join [c.ModelsDir, publisher, info.ID]
        match osStat env files dir with
        | some .notExist =>
          ⟨dir, some (utf8 "model directory not found: " ++ dir), files,
            ev1 ++ r.events ++ [.stat dir]⟩
        | some (.other e) =>
          ⟨dir, some (utf8 "error checking model directory: " ++ e), files,
            ev1 ++ r.events ++ [.stat dir]⟩
        | none =>
          let rm := osRemoveAll env files dir
          match rm.1 with
          | some e =>
            ⟨dir, some (utf8 "error removing model directory " ++ dir ++ utf8 ": " ++ e), rm.2,
              ev1 ++ r.events ++ [.stat dir, .removeAll dir]⟩
          | none => ⟨dir, none, rm.2, ev1 ++ r.events ++ [.stat dir, .removeAll dir]⟩

/-- Result of `ListModels` and of `Chat`: the raw body, the status, the error,
and the calls made. -/
structure RawResult where
  data : Bytes
  status : Nat
  err : Option Bytes
  events : List Event

/-- Go `(*LMStudioClient).ListModels`. -/
def ListModels (env : Env) (c : LMStudioClient) : RawResult :=
  let endpoint := c.BaseURL ++ utf8 "/api/v0/models"
  match env.newRequestErr (utf8 "GET") endpoint with
  | some e => ⟨[], 0, some (utf8 "error creating request: " ++ e), []⟩
  | none =>
    match env.httpDo (utf8 "GET") endpoint [] with
    | .error e =>
      ⟨[], 0, some (utf8 "error calling LM Studio: " ++ e), [.httpDo (utf8 "GET") endpoint []]⟩
    | .ok resp =>
      match resp.ReadErr with
      | some e =>
        ⟨[], resp.StatusCode, some (utf8 "error reading LM Studio response: " ++ e),
          [.httpDo (utf8 "GET") endpoint []]⟩
      | none => ⟨resp.Body, resp.StatusCode, none, [.httpDo (utf8 "GET") endpoint []]⟩

/-- Go `(*LMStudioClient).Chat`. -/
def Chat (env : Env) (c : LMStudioClient) (payload : Bytes) : RawResult :=
  let endpoint := c.BaseURL ++ utf8 "/api/v0/chat/completions"
  match env.newRequestErr (utf8 "POST") endpoint with
  | some e => ⟨[], 0, some (utf8 "error creating chat request: " ++ e), []⟩
  | none =>
    match env.httpDo (utf8 "POST") endpoint payload with
    | .error e =>
      ⟨[], 0, some (utf8 "error calling LM Studio: " ++ e),
        [.httpDo (utf8 "POST") endpoint payload]⟩
    | .ok resp =>
      match resp.ReadErr with
      | some e =>
        ⟨[], resp.StatusCode, some (utf8 "error reading chat response: " ++ e),
          [.httpDo (utf8 "POST") endpoint payload]⟩
      | none => ⟨resp.Body, resp.StatusCode, none, [.httpDo (utf8 "POST") endpoint payload]⟩

/-! ## The response envelope and its serialization -/

/-- The Go values the handlers put into a `map[string]interface{}`. -/
inductive Value
  | int (n : Nat)
  | string (s : Bytes)
  | rawMessage (m : Bytes)
  deriving DecidableEq, Repr

/-- A Go value of type `map[string]interface{}`: the nil map or a map literal. -/
inductive GoMap
  | nil
  | make (entries : List (Bytes × Value))
  deriving DecidableEq, Repr

/-- Go `NATSResponse`. `Data` is an `interface{}`: `none` is the nil interface,
`some m` an interface holding the map `m` (also when `m` is the nil map). -/
structure NATSResponse where
  OK : Bool
  Error : Bytes
  Data : Option GoMap
  deriving DecidableEq, Repr

/-- A value as it stands inside the `data` object of a serialized envelope. -/
inductive JScalar
  | num (n : Nat)
  | str (s : Bytes)
  | raw (text : Bytes)
  deriving DecidableEq, Repr

/-- The `data` member of a serialized envelope. -/
inductive JData
  | null
  | obj (members : List (Bytes × JScalar))
  deriving DecidableEq, Repr

/-- The JSON document that `json.Marshal` writes for a `NATSResponse`: which
members it has and what they hold. `error` and `data` are `none` when the
member is left out (`omitempty`). -/
structure Wire where
  ok : Bool
  error : Option Bytes
  data : Option JData
  deriving DecidableEq, Repr

/-- The depth at which the values of the `data` map stand in the serialized
envelope: inside the envelope object and inside the `data` object. -/
def dataDepth : Nat := 2

/-- Encoding of a value of the `data` map. A `json.RawMessage` is a
`Marshaler`: its bytes go through `compact` with HTML escaping, and the
encoding fails when they are not well-formed JSON or when, two levels deep in
the envelope, they nest deeper than the limit on the document allows. -/
def encodeValue : Value → Option JScalar
  | .int n => some (.num n)
  | .string s => some (.str s)
  | .rawMessage m => (appendCompact m true dataDepth).map .raw

/-- Encoding of the entries of a map, in the given order. -/
def encodeEntries : List (Bytes × Value) → Option (List (Bytes × JScalar))
  | [] => some []
  | (k, v) :: kvs =>
    match encodeValue v, encodeEntries kvs with
    | some j, some js => some ((k, j) :: js)
    | _, _ => none

/-- Insertion of an entry into a list sorted by key. -/
def insertEntry (kv : Bytes × Value) : List (Bytes × Value) → List (Bytes × Value)
  | [] => [kv]
  | x :: xs => if bytesLt x.1 kv.1 then x :: insertEntry kv xs else kv :: x :: xs

/-- The map encoder visits the keys in sorted order. -/
def sortEntries : List (Bytes × Value) → List (Bytes × Value)
  | [] => []
  | kv :: kvs => insertEntry kv (sortEntries kvs)

/-- The document `json.Marshal` builds for a `NATSResponse`, or `none` when
`Marshal` returns an error. `Error` is left out when empty; `Data` is left out
only when it is the nil interface, and an interface holding a nil map is
written as `null`. -/
def encodeResponse (v : NATSResponse) : Option Wire :=
  let error := if v.Error == [] then none else some v.Error
  match v.Data with
  | none => some ⟨v.OK, error, none⟩
  | some .nil => some ⟨v.OK, error, some .null⟩
  | some (.make entries) =>
    match encodeEntries (sortEntries entries) with
    | some members => some ⟨v.OK, error, some (.obj members)⟩
    | none => none

/-- JSON text of a value inside `data`. -/
def JScalar.render : JScalar → Bytes
  | .num n => itoa n
  | .str s => appendString s
  | .raw text => text

/-- JSON text of the members of `data`, separated by commas. -/
def renderMembers : List (Bytes × JScalar) → Bytes
  | [] => []
  | [(k, v)] => appendString k ++ ch ':' :: v.render
  | (k, v) :: ms => appendString k ++ ch ':' :: v.render ++ ch ',' :: renderMembers ms

/-- JSON text of `data`. -/
def JData.render : JData → Bytes
  | .null => utf8 "null"
  | .obj members => ch '{' :: renderMembers members ++ [ch '}']

/-- JSON text of the envelope, as `json.Marshal` writes it. -/
def Wire.render (w : Wire) : Bytes :=
  ch '{' :: utf8 "\"ok\":" ++ (if w.ok then utf8 "true" else utf8 "false") ++
    (match w.error with
      | none => []
      | some e => utf8 ",\"error\":" ++ appendString e) ++
    (match w.data with
      | none => []
      | some d => utf8 ",\"data\":" ++ d.render) ++
    [ch '}']

/-- Go `json.Marshal(v)` for a `NATSResponse`: the bytes, or `none` for an error. -/
def jsonMarshal (v : NATSResponse) : Option Bytes := (encodeResponse v).map Wire.render

/-- The raw message among the entries that `Marshal` rejects first, for the error text. -/
def firstBadRaw : List (Bytes × Value) → Bytes
  | [] => []
  | (_, .rawMessage m) :: kvs =>
    if (appendCompact m true dataDepth).isNone then m else firstBadRaw kvs
  | _ :: kvs => firstBadRaw kvs

/-- The bytes replied when the envelope cannot be serialized. -/
def fallbackReply : Bytes :=
  utf8 "\x7b\"ok\":false,\"error\":\"internal error serializing response\"\x7d"

/-- The document that `fallbackReply` is the text of. -/
def fallbackWire : Wire := ⟨false, some (utf8 "internal error serializing response"), none⟩

/-! ## Server: the NATS handlers -/

/-- Go `respondJSON`: the calls made (one `msg.Respond`, and log lines). -/
def respondJSON (env : Env) (v : NATSResponse) : List Event :=
  match jsonMarshal v with
  | none =>
    let bad := match v.Data with
      | some (.make entries) => firstBadRaw (sortEntries entries)
      | _ => []
    [.log (utf8 "error serializing NATS response: " ++ env.marshalerErrorText bad),
      .respond fallbackReply]
  | some b =>
    match env.respondErr b with
    | some e => [.respond b, .log (utf8 "error responding to NATS message: " ++ e)]
    | none => [.respond b]

/-- Go `respondError`. -/
def respondError (env : Env) (err : Bytes) (extraData : GoMap) : List Event :=
  respondJSON env { OK := false, Error := err, Data := some extraData }

/-- What a handler did: the file system afterwards and the calls made, in order. -/
structure Outcome where
  files : FS
  events : List Event

/-- Go `(*Server).onListModels`. -/
def onListModels (env : Env) (c : LMStudioClient) (files : FS) (_payload : Bytes) : Outcome :=
  let r := ListModels env c
  match r.err with
  | some e =>
    ⟨files, r.events ++ respondError env e (.make [(utf8 "http_status", .int r.status)])⟩
  | none =>
    ⟨files, r.events ++ respondJSON env
      { OK := true, Error := [],
        Data := some (.make [(utf8 "http_status", .int r.status),
          (utf8 "models", .rawMessage r.data)]) }⟩

/-- Go `(*Server).OnPullModel`. -/
def OnPullModel (env : Env) (_c : LMStudioClient) (files : FS) (payload : Bytes) : Outcome :=
  match jsonUnmarshal env env.decodePullModelRequest payload with
  | .error e => ⟨files, respondError env (utf8 "invalid JSON in PullModel: " ++ e) .nil⟩
  | .ok req =>
    if req.Identifier == [] then
      ⟨files, respondError env (utf8 "'identifier' is required") .nil⟩
    else
      let r := PullModel env req.Identifier
      match r.err with
      | some e =>
        ⟨files, r.events ++ respondJSON env
          { OK := false, Error := e,
            Data := some (.make [(utf8 "model", .string req.Identifier),
              (utf8 "output", .string r.out)]) }⟩
      | none =>
        ⟨files, r.events ++ respondJSON env
          { OK := true, Error := [],
            Data := some (.make [(utf8 "model", .string req.Identifier),
              (utf8 "output", .string r.out)]) }⟩

/-- Go `(*Server).OnDeleteModel`. -/
def OnDeleteModel (env : Env) (c : LMStudioClient) (files : FS) (payload : Bytes) : Outcome :=
  match jsonUnmarshal env env.decodeDeleteModelRequest payload with
  | .error e => ⟨files, respondError env (utf8 "invalid JSON in DeleteModel: " ++ e) .nil⟩
  | .ok req =>
    if req.ModelID == [] then
      ⟨files, respondError env (utf8 "'model_id' is required") .nil⟩
    else
      let r := DeleteModel env c files req.ModelID
      match r.err with
      | some e =>
        ⟨r.files, r.events ++ respondJSON env
          { OK := false, Error := e,
            Data := some (.make [(utf8 "model_id", .string req.ModelID),
              (utf8 "dir", .string r.dir)]) }⟩
      | none =>
        ⟨r.files, r.events ++ respondJSON env
          { OK := true, Error := [],
            Data := some (.make [(utf8 "model_id", .string req.ModelID),
              (utf8 "deleted_dir", .string r.dir)]) }⟩

/-- Go `(*Server).OnChatModel`. -/
def OnChatModel (env : Env) (c : LMStudioClient) (files : FS) (payload : Bytes) : Outcome :=
  if payload.length == 0 then
    ⟨files, respondError env (utf8 "payload vazio em ChatModel") .nil⟩
  else
    match jsonUnmarshal env env.decodeChatModelHead payload with
    | .error e => ⟨files, respondError env (utf8 "invalid JSON in ChatModel: " ++ e) .nil⟩
    | .ok tmp =>
      if tmp.Model == [] then
        ⟨files, respondError env (utf8 "'model' is required in ChatModel") .nil⟩
      else
        let r := Chat env c payload
        match r.err with
        | some e =>
          ⟨files, r.events ++ respondError env e (.make [(utf8 "http_status", .int r.status)])⟩
        | none =>
          ⟨files, r.events ++ respondJSON env
            { OK := true, Error := [],
              Data := some (.make [(utf8 "http_status", .int r.status),
                (utf8 "response", .rawMessage r.data)]) }⟩

/-- The four bus subjects. -/
inductive Subject
  | list
  | pull
  | delete
  | chat
  deriving DecidableEq, Repr

/-- The handler bound to a subject. -/
def handle : Subject → Env → LMStudioClient → FS → Bytes → Outcome
  | .list => onListModels
  | .pull => OnPullModel
  | .delete => OnDeleteModel
  | .chat => OnChatModel

/-! ## Reading a trace -/

/-- The replies sent: the arguments of the `msg.Respond` calls, in order. -/
def replies : List Event → List Bytes
  | [] => []
  | .respond b :: es => b :: replies es
  | _ :: es => replies es

/-- A call of a Backend Client operation's outbound action: a subprocess, an
HTTP request, or a recursive removal. -/
def Event.isBackend : Event → Bool
  | .exec _ _ => true
  | .httpDo _ _ _ => true
  | .removeAll _ => true
  | _ => false

/-- The subprocesses started, HTTP requests made and removals done. -/
def backendCalls (es : List Event) : List Event := es.filter Event.isBackend

/-- The directories handed to `os.RemoveAll`. -/
def removals : List Event → List Bytes
  | [] => []
  | .removeAll p :: es => p :: removals es
  | _ :: es => removals es

/-- The paths handed to `os.Stat`. -/
def stats : List Event → List Bytes
  | [] => []
  | .stat p :: es => p :: stats es
  | _ :: es => stats es


/-! ## Vocabulary of the statements -/

deriving instance DecidableEq for Except

/-- The envelope invariant on the Go side: a failure carries an error text, a
success carries none. -/
def NATSResponse.Consistent (v : NATSResponse) : Prop :=
  (v.OK = false → v.Error ≠ []) ∧ (v.OK = true → v.Error = [])

/-- The envelope invariant on the wire: `ok=false` comes with a non-empty
`error` member, `ok=true` with no `error` member. -/
def Wire.Invariant (w : Wire) : Prop :=
  (w.ok = false → ∃ e, w.error = some e ∧ e ≠ []) ∧ (w.ok = true → w.error = none)

/-- The run sent exactly one reply, and it is the JSON text of `w`. -/
def Outcome.RepliedWith (o : Outcome) (w : Wire) : Prop := replies o.events = [w.render]

/-- The publisher `DeleteModel` settles on for a model info: the reported one,
or, when none is reported, the part of the reported id before its first slash. -/
def ModelInfo.ResolvesPublisher (info : ModelInfo) (publisher : Bytes) : Prop :=
  (info.Publisher ≠ [] ∧ publisher = info.Publisher) ∨
    (info.Publisher = [] ∧ ∃ rest, info.ID = publisher ++ ch '/' :: rest ∧ ch '/' ∉ publisher)

/-- The path `dir` lies strictly below `parent`: it is `parent`, a slash, and a
non-empty relative path. -/
def IsProperDescendant (parent dir : Bytes) : Prop :=
  ∃ tail : Bytes, tail ≠ [] ∧ tail.head? ≠ some (ch '/') ∧ dir = parent ++ ch '/' :: tail

/-- Where a byte of a JSON text stands with respect to its string literals:
outside of them, inside one, or inside one right after a backslash. -/
inductive StringPos
  | outside
  | inside
  | escaped
  deriving DecidableEq, Repr

/-- Where the byte after `c` stands, when `c` stands at `q`: a quote opens or
closes a string literal, a backslash inside one escapes the next byte. -/
def StringPos.next (q : StringPos) (c : UInt8) : StringPos :=
  match q with
  | .outside => if c == ch '"' then .inside else .outside
  | .inside => if c == ch '"' then .outside else if c == ch '\\' then .escaped else .inside
  | .escaped => .inside

/-- No byte of the text, read from the position `q` on, is one that
`appendCompact` with escaping rewrites or drops: no space, tab, carriage return
or line feed outside of a string literal, and nowhere any of `<`, `>`, `&` or
`E2 80 A8`, `E2 80 A9` (U+2028, U+2029). -/
def compactKeepsFrom : StringPos → Bytes → Bool
  | _, [] => true
  | q, c :: rest =>
    !(q == .outside && isSpace c) && c != ch '<' && c != ch '>' && c != ch '&' &&
      !(c == 0xE2 && rest.headD 0 == 0x80 && (rest.drop 1).headD 0 &&& 0xFE == 0xA8) &&
      compactKeepsFrom (q.next c) rest

/-- No byte of `src` is one that `appendCompact` with escaping rewrites or
drops: `src` has no white space outside of its string literals, none of `<`,
`>`, `&`, and no U+2028 or U+2029. -/
def compactKeeps (src : Bytes) : Bool := compactKeepsFrom .outside src

/-- Where the next byte stands, by the state of the scanner. -/
def Step.stringPos : Step → StringPos
  | .stateInString => .inside
  | .stateInStringEscU => .inside
  | .stateInStringEscU1 => .inside
  | .stateInStringEscU12 => .inside
  | .stateInStringEscU123 => .inside
  | .stateInStringEsc => .escaped
  | _ => .outside

/-- What a call of a state function guarantees about string literals, for a
byte `c` that stands at `q`: unless the scanner has died, its new state tells
where the next byte stands, and a byte is only skipped (`scanSkipSpace`,
`scanEnd`) outside of a string literal. -/
def StepTracks (q : StringPos) (c : UInt8) (r : Nat × Scanner) : Prop :=
  r.2.err = true ∨ (r.2.step.stringPos = q.next c ∧ (scanSkipSpace ≤ r.1 → q = .outside))

/-! ### The scanner -/

/-- The scanner's error flag and its dead state go together: `scanner.error`
sets both, nothing else sets either. -/
def Scanner.Inv (s : Scanner) : Prop := s.err = true ↔ s.step = .stateError

/-- What a call of a state function on the byte `c` guarantees: the flag and
the dead state still go together, `scanSkipSpace` is only said of a space,
`scanEnd` of a byte that is no space comes with an error, and so does
`scanError`, the largest opcode. -/
def StepGood (c : UInt8) (r : Nat × Scanner) : Prop :=
  r.2.Inv ∧ (r.1 = scanSkipSpace → isSpace c = true) ∧
    (r.1 = scanEnd → isSpace c = false → r.2.err = true) ∧
    (r.1 = scanError → r.2.err = true) ∧ r.1 ≤ scanError

/-- The scanners `s` and `s0` are in the same state, `s0` standing no deeper
in its document than `s`. -/
def Scanner.Above (s s0 : Scanner) : Prop :=
  s0.step = s.step ∧ s0.endTop = s.endTop ∧ s0.parseState = s.parseState ∧ s0.err = s.err ∧
    s0.depth ≤ s.depth

/-- Two results of a state function: unless the first is `scanError`, the
second is the same opcode, with the scanners in the same state. -/
def SameStep (r r0 : Nat × Scanner) : Prop :=
  r.1 ≠ scanError → r0.1 = r.1 ∧ r.2.Above r0.2

/-- The scanner after `k` arrays have been opened and nothing else read, in a
text standing `d` levels deep; `step` is the state it is in. -/
def arraysOpen (step : Step) (k d : Nat) : Scanner :=
  ⟨step, false, List.replicate k .parseArrayValue, false, d⟩

/-- The scanner after the one value of the text has been read to its end. -/
def atEndTop (d : Nat) : Scanner := ⟨.stateEndTop, true, [], false, d⟩

/-! ### The elements of a path, and `Clean` told by elements -/

/-- Go `strings.Split(s, "/")`: the elements of a path. -/
def splitSlash : Bytes → List Bytes
  | [] => [[]]
  | b :: s =>
    if isPathSeparator b then [] :: splitSlash s
    else match splitSlash s with
      | e :: es => (b :: e) :: es
      | [] => [[b]]

/-- The elements of a path that name something: all but the empty ones and `.`. -/
def pathNames (p : Bytes) : List Bytes :=
  (splitSlash p).filter fun e => e != [] && e != [ch '.']

/-- Whether a path has a `..` element. -/
def hasDotDot (p : Bytes) : Bool := (splitSlash p).contains [ch '.', ch '.']

/-- How `Clean` appends a name to its (reversed) output: a separator first,
unless the output is empty or just the root. -/
def cleanAppend (rooted : Bool) (out e : Bytes) : Bytes :=
  e.reverse ++ (if (rooted && out.length != 1) || (!rooted && out.length != 0)
    then ch '/' :: out else out)

/-- Appending of several names in turn. -/
def cleanAppendAll (rooted : Bool) : List Bytes → Bytes → Bytes
  | [], out => out
  | e :: es, out => cleanAppendAll rooted es (cleanAppend rooted out e)

/-- What `Clean` does with one element of the path, on its state: the output
written so far (reversed) and the index `dotdot`. -/
def cleanElem (rooted : Bool) (st : Bytes × Nat) (e : Bytes) : Bytes × Nat :=
  if e == [] || e == [ch '.'] then st
  else if e == [ch '.', ch '.'] then
    if st.1.length > st.2 then (cleanBacktrack st.2 st.1, st.2)
    else if !rooted then
      (ch '.' :: ch '.' :: (if st.1.length > 0 then ch '/' :: st.1 else st.1),
        (ch '.' :: ch '.' :: (if st.1.length > 0 then ch '/' :: st.1 else st.1)).length)
    else st
  else (cleanAppend rooted st.1 e, st.2)

/-- What `Clean` does with the elements of a path, one after the other. -/
def cleanElems (rooted : Bool) (es : List Bytes) (st : Bytes × Nat) : Bytes × Nat :=
  es.foldl (cleanElem rooted) st

/-- The state in which `Clean` enters its loop. -/
def cleanInit (rooted : Bool) : Bytes × Nat := if rooted then ([ch '/'], 1) else ([], 0)

/-- The end of `Clean`: an empty output becomes `.`. -/
def cleanFinish (out : Bytes) : Bytes := if out.length == 0 then utf8 "." else out.reverse

/-- The output of `Clean` is such that the next name is preceded by a separator. -/
def NeedsSep (rooted : Bool) (out : Bytes) : Prop :=
  (rooted = true → 2 ≤ out.length) ∧ (rooted = false → 1 ≤ out.length)

/-! ### Test doubles -/

/-- A test double for the outside world: every HTTP request is answered with
`resp`, every body decodes to `info`, the inbound payload `payload` decodes to
a request whose field is `field` and any other payload to a request with an
empty field, subprocesses and file operations succeed. -/
def stubEnv (resp : HTTPResponse) (info : ModelInfo) (payload field : Bytes) : Env where
  newRequestErr _ _ := none
  httpDo _ _ _ := .ok resp
  combinedOutput _ := ([], none)
  statErr _ := none
  removeAllErr _ := none
  respondErr _ := none
  syntaxErrorText _ := utf8 "unexpected end of JSON input"
  marshalerErrorText _ := utf8 "json: error calling MarshalJSON for type json.RawMessage"
  decodePullModelRequest data := .ok ⟨if data == payload then field else []⟩
  decodeDeleteModelRequest data := .ok ⟨if data == payload then field else []⟩
  decodeChatModelHead data := .ok ⟨if data == payload then field else []⟩
  decodeModelInfo _ _ := .ok info

/-- A client for a local daemon with its models under `/models`. -/
def stubClient : LMStudioClient :=
  NewLMStudioClient (utf8 "http://localhost:1234/") (utf8 "/models/")

/-- The URL of the model-listing request of `stubClient`. -/
def stubListURL : Bytes := utf8 "http://localhost:1234/api/v0/models"

/-- A daemon answer with status 404 and the body `Not Found`. -/
def noResponse : HTTPResponse := ⟨404, utf8 "Not Found", none⟩

/-- A daemon answer with status 200 and this body. -/
def okResponse (body : Bytes) : HTTPResponse := ⟨200, body, none⟩

/-- A file system with nothing in it. -/
def emptyFS : FS := fun _ => false

/-- A file system in which, of all path names, exactly `path` denotes an entry. -/
def onlyFS (path : Bytes) : FS := fun p => p == path

/-- The model info body of a daemon reporting `{id:"acme/foo", publisher:"acme"}`. -/
def acmeFooBody : Bytes := utf8 "\x7b\"id\":\"acme/foo\",\"publisher\":\"acme\"\x7d"

/-- The model info `{id:"acme/foo", publisher:"acme"}`. -/
def acmeFoo : ModelInfo := ⟨utf8 "acme/foo", utf8 "acme"⟩

/-- The `models.delete` payload `{"model_id":"acme/foo"}`. -/
def deleteAcmeFoo : Bytes := utf8 "\x7b\"model_id\":\"acme/foo\"\x7d"

/-- The `models.delete` payload `{"model_id":"foo"}`. -/
def deleteFoo : Bytes := utf8 "\x7b\"model_id\":\"foo\"\x7d"

/-- A model list with a space inside a string literal and none outside:
`{"data":[{"id":"my model"}]}`. -/
def namedListBody : Bytes := utf8 "\x7b\"data\":[\x7b\"id\":\"my model\"\x7d]\x7d"

/-- An error body in JSON, as a daemon may send it with a status other than
200: `{"error": "model listing is disabled"}`. -/
def errorListBody : Bytes := utf8 "\x7b\"error\": \"model listing is disabled\"\x7d"

/-- The text `[[...[]...]]` of `n` arrays nested in one another. -/
def nestedArrays (n : Nat) : Bytes := List.replicate n (ch '[') ++ List.replicate n (ch ']')

/-- A model list as a daemon may well print it: `{"data": [], "note": "a<b"}`. -/
def spacedListBody : Bytes := utf8 "\x7b\"data\": [], \"note\": \"a<b\"\x7d"

/-- A test double with nothing to offer: every request is answered 404 `Not Found`. -/
def bareEnv : Env := stubEnv noResponse ⟨[], []⟩ [] []

/-- A test double whose daemon answers the listing request with status 200 and `body`. -/
def listEnv (body : Bytes) : Env := stubEnv (okResponse body) ⟨[], []⟩ [] []

/-- A test double whose daemon answers every request with `status` and `body`. -/
def statusEnv (status : Nat) (body : Bytes) : Env := stubEnv ⟨status, body, none⟩ ⟨[], []⟩ [] []

/-- A test double whose daemon reports `{id:"acme/foo", publisher:"acme"}` and
whose decoder reads `payload` as a request for the model `m`. -/
def acmeEnv (payload m : Bytes) : Env := stubEnv (okResponse acmeFooBody) acmeFoo payload m

/-- A test double whose daemon reports the id `id` and no publisher. -/
def noPublisherEnv (id : Bytes) : Env :=
  stubEnv (okResponse (utf8 "\x7b\"id\":\"" ++ id ++ utf8 "\"\x7d")) ⟨id, []⟩ [] []

/-- A test double whose daemon reports the id `id` with the publisher `acme`. -/
def acmeIdEnv (id : Bytes) : Env :=
  stubEnv (okResponse (utf8 "\x7b\"id\":\"" ++ id ++ utf8 "\",\"publisher\":\"acme\"\x7d"))
    ⟨id, utf8 "acme"⟩ [] []


/-! ## Basic facts -/

theorem utf8EncodeChar_ne_nil (c : Char) : String.utf8EncodeChar c ≠ [] := by
  intro h
  have h1 := String.length_utf8EncodeChar c
  rw [h] at h1
  have h2 := Char.utf8Size_pos c
  simp at h1
  omega

@[simp] theorem utf8_eq_nil_iff (s : String) : utf8 s = [] ↔ s = "" := by
  cases s with
  | mk data =>
    cases data with
    | nil => simp [utf8]
    | cons c cs =>
      simp [utf8, utf8EncodeChar_ne_nil]
      intro h
      exact absurd (congrArg String.data h) (by simp)

theorem replies_append (a b : List Event) : replies (a ++ b) = replies a ++ replies b := by
  induction a with
  | nil => rfl
  | cons e a ih => cases e <;> simp [replies, ih]

theorem removals_append (a b : List Event) : removals (a ++ b) = removals a ++ removals b := by
  induction a with
  | nil => rfl
  | cons e a ih => cases e <;> simp [removals, ih]

theorem stats_append (a b : List Event) : stats (a ++ b) = stats a ++ stats b := by
  induction a with
  | nil => rfl
  | cons e a ih => cases e <;> simp [stats, ih]

theorem backendCalls_append (a b : List Event) :
    backendCalls (a ++ b) = backendCalls a ++ backendCalls b := by
  simp [backendCalls]

/-! ### Fuel -/

/-- The string encoder consumes at least one byte per iteration: fuel beyond
the length of the input changes nothing. -/
theorem appendStringLoop_fuel_succ :
    ∀ (fuel : Nat) (src : Bytes), src.length ≤ fuel →
      appendStringLoop (fuel + 1) src = appendStringLoop fuel src := by
  intro fuel
  induction fuel with
  | zero =>
    intro src h
    have : src = [] := List.length_eq_zero.mp (Nat.le_zero.mp h)
    subst this
    simp [appendStringLoop]
  | succ fuel ih =>
    intro src h
    cases src with
    | nil => simp [appendStringLoop]
    | cons b src =>
      have hl : src.length ≤ fuel := by simpa using h
      have hl2 : (src.drop 2).length ≤ fuel := by
        simp only [List.length_drop]
        omega
      cases hsz : runeWidth (b :: src) with
      | zero => simp only [appendStringLoop, hsz, ih _ hl, ih _ hl2, beq_self_eq_true, if_true]
      | succ n =>
        have hl3 : ((b :: src).drop (n + 1)).length ≤ fuel := by
          simp only [List.length_drop, List.length_cons]
          omega
        simp only [appendStringLoop, hsz, ih _ hl, ih _ hl2, ih _ hl3]

/-! ### respondJSON -/

theorem replies_respondJSON (env : Env) (v : NATSResponse) :
    replies (respondJSON env v) = [(jsonMarshal v).getD fallbackReply] := by
  unfold respondJSON
  cases h : jsonMarshal v with
  | none => simp [replies]
  | some b => cases h2 : env.respondErr b <;> simp [replies, h2]

theorem backendCalls_respondJSON (env : Env) (v : NATSResponse) :
    backendCalls (respondJSON env v) = [] := by
  unfold respondJSON
  cases h : jsonMarshal v with
  | none => simp [backendCalls, Event.isBackend]
  | some b => cases h2 : env.respondErr b <;> simp [backendCalls, Event.isBackend, h2]

theorem removals_respondJSON (env : Env) (v : NATSResponse) :
    removals (respondJSON env v) = [] := by
  unfold respondJSON
  cases h : jsonMarshal v with
  | none => simp [removals]
  | some b => cases h2 : env.respondErr b <;> simp [removals, h2]

/-! ### The client operations send no reply, and their errors have a text -/

theorem replies_PullModel (env : Env) (identifier : Bytes) :
    replies (PullModel env identifier).events = [] := by
  simp only [PullModel]
  split
  · rfl
  · split <;> rfl

theorem PullModel_err_ne_nil (env : Env) (identifier e : Bytes)
    (h : (PullModel env identifier).err = some e) : e ≠ [] := by
  simp only [PullModel] at h
  split at h
  · simp at h; subst h; simp
  · split at h
    · simp at h; subst h; simp
    · simp at h

theorem replies_getModelInfo (env : Env) (c : LMStudioClient) (m : Bytes) :
    replies (getModelInfo env c m).events = [] := by
  simp only [getModelInfo]
  repeat' split
  all_goals rfl

theorem getModelInfo_err_ne_nil (env : Env) (c : LMStudioClient) (m e : Bytes)
    (h : (getModelInfo env c m).info = .error e) : e ≠ [] := by
  simp only [getModelInfo] at h
  repeat' split at h
  all_goals first
    | (simp at h; subst h; simp)
    | simp at h

theorem replies_unloadModel (env : Env) (m : Bytes) : replies (unloadModel env m) = [] := by
  simp only [unloadModel]
  repeat' split
  all_goals rfl

theorem replies_DeleteModel (env : Env) (c : LMStudioClient) (files : FS) (m : Bytes) :
    replies (DeleteModel env c files m).events = [] := by
  simp only [DeleteModel]
  repeat' split
  all_goals simp [replies_append, replies_unloadModel, replies_getModelInfo, replies]

theorem DeleteModel_err_ne_nil (env : Env) (c : LMStudioClient) (files : FS) (m e : Bytes)
    (h : (DeleteModel env c files m).err = some e) : e ≠ [] := by
  simp only [DeleteModel] at h
  repeat' split at h
  all_goals first
    | (simp at h; subst h; apply getModelInfo_err_ne_nil; assumption)
    | (simp at h; subst h; simp)
    | (simp at h)

theorem replies_ListModels (env : Env) (c : LMStudioClient) :
    replies (ListModels env c).events = [] := by
  simp only [ListModels]
  repeat' split
  all_goals rfl

theorem ListModels_err_ne_nil (env : Env) (c : LMStudioClient) (e : Bytes)
    (h : (ListModels env c).err = some e) : e ≠ [] := by
  simp only [ListModels] at h
  repeat' split at h
  all_goals first
    | (simp at h; subst h; simp)
    | (simp at h)

theorem replies_Chat (env : Env) (c : LMStudioClient) (payload : Bytes) :
    replies (Chat env c payload).events = [] := by
  simp only [Chat]
  repeat' split
  all_goals rfl

theorem Chat_err_ne_nil (env : Env) (c : LMStudioClient) (payload e : Bytes)
    (h : (Chat env c payload).err = some e) : e ≠ [] := by
  simp only [Chat] at h
  repeat' split at h
  all_goals first
    | (simp at h; subst h; simp)
    | (simp at h)

/-! ### Shape of a handler run -/

/-- Every handler run is: calls that send no reply, then one `respondJSON` of
a consistent envelope. -/
theorem handle_shape (subject : Subject) (env : Env) (c : LMStudioClient) (files : FS)
    (payload : Bytes) :
    ∃ (pre : List Event) (v : NATSResponse),
      (handle subject env c files payload).events = pre ++ respondJSON env v ∧
      replies pre = [] ∧ v.Consistent := by
  cases subject with
  | list =>
    simp only [handle, onListModels, respondError]
    split
    · next e he =>
      exact ⟨_, _, rfl, replies_ListModels env c,
        by simp [NATSResponse.Consistent, ListModels_err_ne_nil env c e he]⟩
    · exact ⟨_, _, rfl, replies_ListModels env c, by simp [NATSResponse.Consistent]⟩
  | pull =>
    simp only [handle, OnPullModel, respondError]
    split
    · exact ⟨[], ⟨false, _, some .nil⟩, rfl, rfl, by simp [NATSResponse.Consistent]⟩
    · split
      · exact ⟨[], ⟨false, _, some .nil⟩, rfl, rfl, by simp [NATSResponse.Consistent]⟩
      · split
        · next e he =>
          exact ⟨_, _, rfl, replies_PullModel env _,
            by simp [NATSResponse.Consistent, PullModel_err_ne_nil env _ e he]⟩
        · exact ⟨_, _, rfl, replies_PullModel env _, by simp [NATSResponse.Consistent]⟩
  | delete =>
    simp only [handle, OnDeleteModel, respondError]
    split
    · exact ⟨[], ⟨false, _, some .nil⟩, rfl, rfl, by simp [NATSResponse.Consistent]⟩
    · split
      · exact ⟨[], ⟨false, _, some .nil⟩, rfl, rfl, by simp [NATSResponse.Consistent]⟩
      · split
        · next e he =>
          exact ⟨_, _, rfl, replies_DeleteModel env c files _,
            by simp [NATSResponse.Consistent, DeleteModel_err_ne_nil env c files _ e he]⟩
        · exact ⟨_, _, rfl, replies_DeleteModel env c files _, by simp [NATSResponse.Consistent]⟩
  | chat =>
    simp only [handle, OnChatModel, respondError]
    split
    · exact ⟨[], ⟨false, _, some .nil⟩, rfl, rfl, by simp [NATSResponse.Consistent]⟩
    · split
      · exact ⟨[], ⟨false, _, some .nil⟩, rfl, rfl, by simp [NATSResponse.Consistent]⟩
      · split
        · exact ⟨[], ⟨false, _, some .nil⟩, rfl, rfl, by simp [NATSResponse.Consistent]⟩
        · split
          · next e he =>
            exact ⟨_, _, rfl, replies_Chat env c payload,
              by simp [NATSResponse.Consistent, Chat_err_ne_nil env c payload e he]⟩
          · exact ⟨_, _, rfl, replies_Chat env c payload, by simp [NATSResponse.Consistent]⟩


/-! ### Serialization of an envelope -/

theorem fallbackWire_render : fallbackWire.render = fallbackReply := by decide

theorem fallbackWire_invariant : fallbackWire.Invariant := by
  refine ⟨fun _ => ⟨_, rfl, by simp⟩, fun h => ?_⟩
  simp [fallbackWire] at h

theorem encodeResponse_invariant (v : NATSResponse) (w : Wire) (hv : v.Consistent)
    (h : encodeResponse v = some w) : w.Invariant := by
  obtain ⟨h1, h2⟩ := hv
  have key : w.ok = v.OK ∧ w.error = (if v.Error == [] then none else some v.Error) := by
    simp only [encodeResponse] at h
    generalize (if v.Error == [] then none else some v.Error) = err at h ⊢
    repeat' split at h
    all_goals first
      | (simp at h; subst h; simp)
      | (simp at h)
  obtain ⟨k1, k2⟩ := key
  constructor
  · intro hok
    have := h1 (k1 ▸ hok)
    exact ⟨v.Error, by simp [k2, this], this⟩
  · intro hok
    have := h2 (k1 ▸ hok)
    simp [k2, this]

theorem respondJSON_invariant (env : Env) (v : NATSResponse) (hv : v.Consistent) :
    ∀ r ∈ replies (respondJSON env v), ∃ w : Wire, r = w.render ∧ w.Invariant := by
  intro r hr
  rw [replies_respondJSON] at hr
  simp only [List.mem_singleton] at hr
  subst hr
  cases h : jsonMarshal v with
  | none => exact ⟨fallbackWire, by simp [fallbackWire_render], fallbackWire_invariant⟩
  | some b =>
    simp only [jsonMarshal, Option.map_eq_some'] at h
    obtain ⟨w, hw, rfl⟩ := h
    exact ⟨w, by simp, encodeResponse_invariant v w hv hw⟩

/-- An error envelope without diagnostic data always serializes. -/
theorem respondError_nil (env : Env) (err : Bytes) (h : err ≠ []) :
    replies (respondError env err .nil) = [Wire.render ⟨false, some err, some .null⟩] ∧
      backendCalls (respondError env err .nil) = [] := by
  refine ⟨?_, backendCalls_respondJSON env _⟩
  simp [respondError, replies_respondJSON, jsonMarshal, encodeResponse, h]

/-! ## The claims -/

/-- C1: whatever the subject, the payload and the outcome of the backend call,
every reply of a handler is the JSON text of an envelope in which `ok=false`
comes with a non-empty `error` and `ok=true` with no `error` member; the
hardcoded fallback reply is such a text. -/
theorem C1_envelope_invariant (subject : Subject) (env : Env) (c : LMStudioClient) (files : FS)
    (payload : Bytes) :
    (∀ r ∈ replies (handle subject env c files payload).events,
      ∃ w : Wire, r = w.render ∧ w.Invariant) ∧
    (fallbackReply = fallbackWire.render ∧ fallbackWire.Invariant) := by
  refine ⟨?_, fallbackWire_render.symm, fallbackWire_invariant⟩
  obtain ⟨pre, v, hev, hpre, hv⟩ := handle_shape subject env c files payload
  intro r hr
  rw [hev, replies_append, hpre, List.nil_append] at hr
  exact respondJSON_invariant env v hv r hr

/-- C2: whatever the subject, the payload and the outcome of the backend call,
a handler calls `msg.Respond` exactly once: its run is a sequence of calls
that send nothing followed by one `respondJSON` of an envelope, which sends
the serialized envelope, or the hardcoded fallback when `json.Marshal` fails. -/
theorem C2_exactly_one_reply (subject : Subject) (env : Env) (c : LMStudioClient) (files : FS)
    (payload : Bytes) :
    (replies (handle subject env c files payload).events).length = 1 ∧
    ∃ (pre : List Event) (v : NATSResponse),
      (handle subject env c files payload).events = pre ++ respondJSON env v ∧
      replies pre = [] ∧
      (jsonMarshal v = none →
        replies (handle subject env c files payload).events =
          [utf8 "\x7b\"ok\":false,\"error\":\"internal error serializing response\"\x7d"]) ∧
      (∀ b, jsonMarshal v = some b →
        replies (handle subject env c files payload).events = [b]) := by
  obtain ⟨pre, v, hev, hpre, _⟩ := handle_shape subject env c files payload
  have hr : replies (handle subject env c files payload).events =
      [(jsonMarshal v).getD fallbackReply] := by
    rw [hev, replies_append, hpre, List.nil_append, replies_respondJSON]
  refine ⟨by simp [hr], pre, v, hev, hpre, ?_, ?_⟩
  · intro h
    rw [hr, h]
    rfl
  · intro b h
    rw [hr, h]
    rfl

theorem jsonUnmarshal_nil {α : Type} (env : Env) (decode : Bytes → Except Bytes α) :
    jsonUnmarshal env decode [] = .error (env.syntaxErrorText []) := by
  have h : checkValid [] = false := by decide
  simp [jsonUnmarshal, h]

/-- C3 (amended): a payload that `json.Unmarshal` rejects for the request
shape gets, from `OnPullModel` and `OnDeleteModel` always and from
`OnChatModel` when it is not empty, the single reply `ok=false` with the
error `invalid JSON in <Operation>: ` followed by the decoder's message, and
no subprocess, HTTP request or removal happens. The empty payload, which
`json.Unmarshal` rejects, gets from `OnChatModel` the error
`payload vazio em ChatModel` instead, again without any backend call. -/
theorem C3_invalid_json (env : Env) (c : LMStudioClient) (files : FS) (payload : Bytes) :
    (∀ e, jsonUnmarshal env env.decodePullModelRequest payload = .error e →
      (OnPullModel env c files payload).RepliedWith
        ⟨false, some (utf8 "invalid JSON in PullModel: " ++ e), some .null⟩ ∧
      backendCalls (OnPullModel env c files payload).events = []) ∧
    (∀ e, jsonUnmarshal env env.decodeDeleteModelRequest payload = .error e →
      (OnDeleteModel env c files payload).RepliedWith
        ⟨false, some (utf8 "invalid JSON in DeleteModel: " ++ e), some .null⟩ ∧
      backendCalls (OnDeleteModel env c files payload).events = []) ∧
    (∀ e, payload ≠ [] → jsonUnmarshal env env.decodeChatModelHead payload = .error e →
      (OnChatModel env c files payload).RepliedWith
        ⟨false, some (utf8 "invalid JSON in ChatModel: " ++ e), some .null⟩ ∧
      backendCalls (OnChatModel env c files payload).events = []) ∧
    ((∃ e, jsonUnmarshal env env.decodeChatModelHead [] = .error e) ∧
      (OnChatModel env c files []).RepliedWith
        ⟨false, some (utf8 "payload vazio em ChatModel"), some .null⟩ ∧
      backendCalls (OnChatModel env c files []).events = []) := by
  refine ⟨?_, ?_, ?_, ⟨_, jsonUnmarshal_nil env _⟩, ?_⟩
  · intro e h
    simp only [OnPullModel, h, Outcome.RepliedWith]
    exact respondError_nil env _ (by simp)
  · intro e h
    simp only [OnDeleteModel, h, Outcome.RepliedWith]
    exact respondError_nil env _ (by simp)
  · intro e hne h
    have hlen : (payload.length == 0) = false := by
      cases payload with
      | nil => exact absurd rfl hne
      | cons b bs => rfl
    simp only [OnChatModel, hlen, h, Outcome.RepliedWith]
    exact respondError_nil env _ (by simp)
  · simp only [OnChatModel, Outcome.RepliedWith]
    exact respondError_nil env _ (by simp)


/-- In the text of a failure envelope the first byte of the error, when it is
one the string encoder copies, stands at index 21, after `{"ok":false,"error":"`. -/
theorem render_error_head (w : Wire) (b : UInt8) (t : Bytes) (hok : w.ok = false)
    (he : w.error = some (b :: t)) (hb : b < 0x80) (hs : htmlSafeSet b = true) :
    w.render.get? 21 = some b := by
  have e1 : utf8 "\"ok\":" = [34, 111, 107, 34, 58] := by decide
  have e2 : utf8 "false" = [102, 97, 108, 115, 101] := by decide
  have e3 : utf8 ",\"error\":" = [44, 34, 101, 114, 114, 111, 114, 34, 58] := by decide
  simp [Wire.render, hok, he, e1, e2, e3, appendString, appendStringLoop, hb, hs]

/-- C3, witness: `{` is rejected by `json.Unmarshal`, and each of the three
handlers answers it with its `invalid JSON in ...` error and calls nothing. -/
theorem C3_invalid_json_witness :
    ((OnPullModel bareEnv stubClient emptyFS (utf8 "\x7b")).RepliedWith
        ⟨false, some (utf8 "invalid JSON in PullModel: unexpected end of JSON input"), some .null⟩ ∧
      backendCalls (OnPullModel bareEnv stubClient emptyFS (utf8 "\x7b")).events = []) ∧
    ((OnDeleteModel bareEnv stubClient emptyFS (utf8 "\x7b")).RepliedWith
        ⟨false, some (utf8 "invalid JSON in DeleteModel: unexpected end of JSON input"), some .null⟩ ∧
      backendCalls (OnDeleteModel bareEnv stubClient emptyFS (utf8 "\x7b")).events = []) ∧
    ((OnChatModel bareEnv stubClient emptyFS (utf8 "\x7b")).RepliedWith
        ⟨false, some (utf8 "invalid JSON in ChatModel: unexpected end of JSON input"), some .null⟩ ∧
      backendCalls (OnChatModel bareEnv stubClient emptyFS (utf8 "\x7b")).events = []) :=
  ⟨(C3_invalid_json bareEnv stubClient emptyFS (utf8 "\x7b")).1
      (utf8 "unexpected end of JSON input") (by decide),
    (C3_invalid_json bareEnv stubClient emptyFS (utf8 "\x7b")).2.1
      (utf8 "unexpected end of JSON input") (by decide),
    (C3_invalid_json bareEnv stubClient emptyFS (utf8 "\x7b")).2.2.1
      (utf8 "unexpected end of JSON input") (by decide) (by decide)⟩

/-- C3, counterexample: the empty payload is rejected by `json.Unmarshal`, yet
`OnChatModel` answers it with the error `payload vazio em ChatModel`; its
reply is not a failure envelope whose error begins with `invalid JSON in ChatModel`. -/
theorem C3_counterexample_chat_empty_payload :
    (∃ e, jsonUnmarshal bareEnv bareEnv.decodeChatModelHead [] = .error e) ∧
    replies (OnChatModel bareEnv stubClient emptyFS []).events =
      [utf8 "\x7b\"ok\":false,\"error\":\"payload vazio em ChatModel\",\"data\":null\x7d"] ∧
    ¬ ∃ (w : Wire) (e : Bytes),
      replies (OnChatModel bareEnv stubClient emptyFS []).events = [w.render] ∧
      w.ok = false ∧ w.error = some e ∧ utf8 "invalid JSON in ChatModel" <+: e := by
  have hr : replies (OnChatModel bareEnv stubClient emptyFS []).events =
      [utf8 "\x7b\"ok\":false,\"error\":\"payload vazio em ChatModel\",\"data\":null\x7d"] := by
    decide
  refine ⟨⟨_, jsonUnmarshal_nil _ _⟩, hr, ?_⟩
  rintro ⟨w, e, hw, hok, he, t, rfl⟩
  have hp : utf8 "invalid JSON in ChatModel" = ch 'i' :: (utf8 "invalid JSON in ChatModel").tail := by
    decide
  rw [hp] at he
  have h21 := render_error_head w (ch 'i') _ hok he (by decide) (by decide)
  rw [hr] at hw
  simp only [List.cons.injEq, and_true] at hw
  rw [← hw] at h21
  revert h21
  decide


/-- C4: a payload that decodes to a request whose required field is empty
(absent fields decode to the empty string) gets the single reply `ok=false`
with exactly the error `'identifier' is required`, `'model_id' is required`
or `'model' is required in ChatModel`; no subprocess is started, no HTTP
request is made, nothing is removed and the file system is as before. -/
theorem C4_required_field (env : Env) (c : LMStudioClient) (files : FS) (payload : Bytes) :
    (∀ req, jsonUnmarshal env env.decodePullModelRequest payload = .ok req →
      req.Identifier = [] →
      (OnPullModel env c files payload).RepliedWith
        ⟨false, some (utf8 "'identifier' is required"), some .null⟩ ∧
      backendCalls (OnPullModel env c files payload).events = [] ∧
      (OnPullModel env c files payload).files = files) ∧
    (∀ req, jsonUnmarshal env env.decodeDeleteModelRequest payload = .ok req →
      req.ModelID = [] →
      (OnDeleteModel env c files payload).RepliedWith
        ⟨false, some (utf8 "'model_id' is required"), some .null⟩ ∧
      backendCalls (OnDeleteModel env c files payload).events = [] ∧
      (OnDeleteModel env c files payload).files = files) ∧
    (∀ tmp, jsonUnmarshal env env.decodeChatModelHead payload = .ok tmp →
      tmp.Model = [] →
      (OnChatModel env c files payload).RepliedWith
        ⟨false, some (utf8 "'model' is required in ChatModel"), some .null⟩ ∧
      backendCalls (OnChatModel env c files payload).events = [] ∧
      (OnChatModel env c files payload).files = files) := by
  refine ⟨?_, ?_, ?_⟩
  · intro req h hreq
    simp only [OnPullModel, h, hreq, Outcome.RepliedWith, beq_self_eq_true, if_true]
    exact ⟨(respondError_nil env _ (by simp)).1, (respondError_nil env _ (by simp)).2, trivial⟩
  · intro req h hreq
    simp only [OnDeleteModel, h, hreq, Outcome.RepliedWith, beq_self_eq_true, if_true]
    exact ⟨(respondError_nil env _ (by simp)).1, (respondError_nil env _ (by simp)).2, trivial⟩
  · intro tmp h htmp
    have hlen : (payload.length == 0) = false := by
      cases payload with
      | nil => rw [jsonUnmarshal_nil] at h; cases h
      | cons b bs => rfl
    simp only [OnChatModel, hlen, h, htmp, Outcome.RepliedWith, beq_self_eq_true, if_true]
    exact ⟨(respondError_nil env _ (by simp)).1, (respondError_nil env _ (by simp)).2, rfl⟩

/-- C4, witness: `models.pull` with `{"identifier":""}`, `models.delete` with
`{}` and `models.chat` with `{"model":""}`. -/
theorem C4_required_field_witness :
    ((OnPullModel bareEnv stubClient emptyFS
          (utf8 "\x7b\"identifier\":\"\"\x7d")).RepliedWith
        ⟨false, some (utf8 "'identifier' is required"), some .null⟩ ∧
      backendCalls (OnPullModel bareEnv stubClient emptyFS
          (utf8 "\x7b\"identifier\":\"\"\x7d")).events = [] ∧
      (OnPullModel bareEnv stubClient emptyFS
          (utf8 "\x7b\"identifier\":\"\"\x7d")).files = emptyFS) ∧
    ((OnDeleteModel bareEnv stubClient emptyFS
          (utf8 "\x7b\x7d")).RepliedWith
        ⟨false, some (utf8 "'model_id' is required"), some .null⟩ ∧
      backendCalls (OnDeleteModel bareEnv stubClient emptyFS
          (utf8 "\x7b\x7d")).events = [] ∧
      (OnDeleteModel bareEnv stubClient emptyFS
          (utf8 "\x7b\x7d")).files = emptyFS) ∧
    ((OnChatModel bareEnv stubClient emptyFS
          (utf8 "\x7b\"model\":\"\"\x7d")).RepliedWith
        ⟨false, some (utf8 "'model' is required in ChatModel"), some .null⟩ ∧
      backendCalls (OnChatModel bareEnv stubClient emptyFS
          (utf8 "\x7b\"model\":\"\"\x7d")).events = [] ∧
      (OnChatModel bareEnv stubClient emptyFS
          (utf8 "\x7b\"model\":\"\"\x7d")).files = emptyFS) :=
  ⟨(C4_required_field bareEnv stubClient emptyFS
      (utf8 "\x7b\"identifier\":\"\"\x7d")).1 ⟨[]⟩ (by decide) rfl,
    (C4_required_field bareEnv stubClient emptyFS
      (utf8 "\x7b\x7d")).2.1 ⟨[]⟩ (by decide) rfl,
    (C4_required_field bareEnv stubClient emptyFS
      (utf8 "\x7b\"model\":\"\"\x7d")).2.2 ⟨[]⟩ (by decide) rfl⟩


/-! ### DeleteModel -/

theorem splitN2_of_slash (a b : Bytes) (h : ch '/' ∉ a) :
    splitN2 (a ++ ch '/' :: b) = [a, b] := by
  induction a with
  | nil => simp [splitN2]
  | cons x a ih =>
    have hx : x ≠ ch '/' := fun e => h (by simp [e])
    have ha : ch '/' ∉ a := fun e => h (by simp [e])
    have ih := ih ha
    simp only [splitN2, List.cons_append, List.dropWhile_cons, List.takeWhile_cons, bne_iff_ne,
      ne_eq, hx, not_false_eq_true, if_true] at ih ⊢
    split at ih
    · simp at ih
    · next after heq =>
      simp only [heq]
      simp at ih
      simp [ih]

theorem splitN2_of_no_slash (s : Bytes) (h : ch '/' ∉ s) : splitN2 s = [s] := by
  have : s.dropWhile (fun b => b != ch '/') = [] := by
    rw [List.dropWhile_eq_nil_iff]
    intro x hx
    simp only [bne_iff_ne, ne_eq]
    exact fun e => h (e ▸ hx)
  simp [splitN2, this]

theorem stats_unloadModel (env : Env) (m : Bytes) : stats (unloadModel env m) = [] := by
  simp only [unloadModel]
  repeat' split
  all_goals rfl

theorem removals_unloadModel (env : Env) (m : Bytes) : removals (unloadModel env m) = [] := by
  simp only [unloadModel]
  repeat' split
  all_goals rfl

theorem stats_getModelInfo (env : Env) (c : LMStudioClient) (m : Bytes) :
    stats (getModelInfo env c m).events = [] := by
  simp only [getModelInfo]
  repeat' split
  all_goals rfl

theorem removals_getModelInfo (env : Env) (c : LMStudioClient) (m : Bytes) :
    removals (getModelInfo env c m).events = [] := by
  simp only [getModelInfo]
  repeat' split
  all_goals rfl

theorem cleanResult_ne_nil (out : Bytes) :
    (if out.length == 0 then utf8 "." else out.reverse) ≠ [] := by
  cases out with
  | nil => simp
  | cons b out => simp

theorem Clean_ne_nil (path : Bytes) : Clean path ≠ [] := by
  cases path with
  | nil => simp [Clean]
  | cons b rest => exact cleanResult_ne_nil _

theorem Join_ne_nil (root publisher id : Bytes) (h : publisher ≠ []) :
    Join [root, publisher, id] ≠ [] := by
  simp only [Join]
  split
  · exact Clean_ne_nil _
  · simp only [bne_iff_ne, ne_eq, h, not_false_eq_true, if_true]
    exact Clean_ne_nil _

/-- What `DeleteModel` does once the daemon has answered with `info` and the
publisher is settled: it stats the joined directory and goes on from there. -/
theorem DeleteModel_resolved (env : Env) (c : LMStudioClient) (files : FS) (m : Bytes)
    (info : ModelInfo) (publisher : Bytes) (hm : m ≠ [])
    (hinfo : (getModelInfo env c m).info = .ok info)
    (hpub : info.ResolvesPublisher publisher) :
    ∃ pre, stats pre = [] ∧ removals pre = [] ∧
      DeleteModel env c files m =
        (match osStat env files (Join [c.ModelsDir, publisher, info.ID]) with
        | some .notExist =>
          ⟨Join [c.ModelsDir, publisher, info.ID],
            some (utf8 "model directory not found: " ++ Join [c.ModelsDir, publisher, info.ID]),
            files, pre ++ [.stat (Join [c.ModelsDir, publisher, info.ID])]⟩
        | some (.other e) =>
          ⟨Join [c.ModelsDir, publisher, info.ID],
            some (utf8 "error checking model directory: " ++ e), files,
            pre ++ [.stat (Join [c.ModelsDir, publisher, info.ID])]⟩
        | none =>
          match (osRemoveAll env files (Join [c.ModelsDir, publisher, info.ID])).1 with
          | some e =>
            ⟨Join [c.ModelsDir, publisher, info.ID],
              some (utf8 "error removing model directory " ++
                Join [c.ModelsDir, publisher, info.ID] ++ utf8 ": " ++ e),
              (osRemoveAll env files (Join [c.ModelsDir, publisher, info.ID])).2,
              pre ++ [.stat (Join [c.ModelsDir, publisher, info.ID]),
                .removeAll (Join [c.ModelsDir, publisher, info.ID])]⟩
          | none =>
            ⟨Join [c.ModelsDir, publisher, info.ID], none,
              (osRemoveAll env files (Join [c.ModelsDir, publisher, info.ID])).2,
              pre ++ [.stat (Join [c.ModelsDir, publisher, info.ID]),
                .removeAll (Join [c.ModelsDir, publisher, info.ID])]⟩) := by
  refine ⟨unloadModel env m ++ (getModelInfo env c m).events, ?_, ?_, ?_⟩
  · simp [stats_append, stats_unloadModel, stats_getModelInfo]
  · simp [removals_append, removals_unloadModel, removals_getModelInfo]
  · have hm2 : (m == []) = false := by simpa using hm
    rcases hpub with ⟨hp, rfl⟩ | ⟨hp, rest, hid, hns⟩
    · have hp2 : (info.Publisher == []) = false := by simpa using hp
      simp only [DeleteModel, hm2, hinfo, hp2, Bool.false_and, if_false, Bool.false_eq_true]
    · have hp2 : (info.Publisher == []) = true := by simpa using hp
      have hsp : splitN2 info.ID = [publisher, rest] := by rw [hid]; exact splitN2_of_slash _ _ hns
      simp only [DeleteModel, hm2, hinfo, hp2, hsp, Bool.false_eq_true, if_false]
      simp only [List.length_cons, List.length_nil, bne_self_eq_false, Bool.and_false,
        Bool.false_eq_true, if_false, if_true, List.headD_cons]


theorem encodeResponse_strings (ok : Bool) (err k1 k2 s1 s2 : Bytes) (hk : bytesLt k2 k1 = true) :
    encodeResponse ⟨ok, err, some (.make [(k1, .string s1), (k2, .string s2)])⟩ =
      some ⟨ok, if err == [] then none else some err,
        some (.obj [(k2, .str s2), (k1, .str s1)])⟩ := by
  simp [encodeResponse, sortEntries, insertEntry, hk, encodeEntries, encodeValue]

theorem respondJSON_strings (env : Env) (ok : Bool) (err k1 k2 s1 s2 : Bytes)
    (hk : bytesLt k2 k1 = true) :
    replies (respondJSON env ⟨ok, err, some (.make [(k1, .string s1), (k2, .string s2)])⟩) =
      [Wire.render ⟨ok, if err == [] then none else some err,
        some (.obj [(k2, .str s2), (k1, .str s1)])⟩] := by
  simp [replies_respondJSON, jsonMarshal, encodeResponse_strings _ _ _ _ _ _ hk]

/-- C5 (amended): for a non-empty requested model ID `m`, when the daemon's
model info reports the id `info.ID` and a non-empty publisher, the directory
`filepath.Join(ModelsDir, publisher, info.ID)` exists and its removal
succeeds, `models.delete` replies `ok=true` with `data.model_id = m` and
`data.deleted_dir` that directory, removes exactly that directory, and the
directory does not exist afterwards. -/
theorem C5_delete_success (env : Env) (c : LMStudioClient) (files : FS) (payload m dir : Bytes)
    (info : ModelInfo)
    (hreq : jsonUnmarshal env env.decodeDeleteModelRequest payload = .ok ⟨m⟩)
    (hm : m ≠ [])
    (hinfo : (getModelInfo env c m).info = .ok info)
    (hpub : info.Publisher ≠ [])
    (hdir : dir = Join [c.ModelsDir, info.Publisher, info.ID])
    (hstat : osStat env files dir = none)
    (hrm : (osRemoveAll env files dir).1 = none) :
    (OnDeleteModel env c files payload).RepliedWith
      ⟨true, none, some (.obj [(utf8 "deleted_dir", .str dir), (utf8 "model_id", .str m)])⟩ ∧
    removals (OnDeleteModel env c files payload).events = [dir] ∧
    (OnDeleteModel env c files payload).files dir = false := by
  obtain ⟨pre, hs, hr, hD⟩ := DeleteModel_resolved env c files m info info.Publisher hm hinfo
    (Or.inl ⟨hpub, rfl⟩)
  rw [← hdir, hstat] at hD
  simp only [hrm] at hD
  have hm2 : (m == []) = false := by simpa using hm
  have hk : bytesLt (utf8 "deleted_dir") (utf8 "model_id") = true := by decide
  have hne : dir ≠ [] := hdir ▸ Join_ne_nil _ _ _ hpub
  have hne2 : (dir == []) = false := by simpa using hne
  simp only [OnDeleteModel, hreq, hm2, hD, Outcome.RepliedWith, Bool.false_eq_true, if_false]
  refine ⟨?_, ?_, ?_⟩
  · have hpre : replies (pre ++ [Event.stat dir, Event.removeAll dir]) = [] := by
      have := replies_DeleteModel env c files m
      rw [hD] at this
      exact this
    rw [replies_append, hpre, replies_respondJSON]
    simp [jsonMarshal, encodeResponse_strings _ _ _ _ _ _ hk]
  · simp [removals_append, hr, removals, removals_respondJSON]
  · simp only [osRemoveAll, hne2, Bool.false_eq_true, if_false] at hrm ⊢
    split at hrm
    · simp at hrm
    · next hdot =>
      simp only [hdot, Bool.false_eq_true, if_false] at hrm ⊢
      split at hrm
      · simp at hrm
      · next hre => simp [hre, isUnder]

/-- C6: for a non-empty requested model ID, when the daemon has answered with
a model info from which the publisher is resolved (reported, or the part of
the reported id before its first slash) and `os.Stat` reports the resolved
directory as absent, `models.delete` replies `ok=false` with the error
`model directory not found: <dir>` and the data `model_id` = the requested ID
and `dir` = the resolved directory; `os.RemoveAll` is not called and the file
system is unchanged. -/
theorem C6_directory_not_found (env : Env) (c : LMStudioClient) (files : FS)
    (payload m dir publisher : Bytes) (info : ModelInfo)
    (hreq : jsonUnmarshal env env.decodeDeleteModelRequest payload = .ok ⟨m⟩)
    (hm : m ≠ [])
    (hinfo : (getModelInfo env c m).info = .ok info)
    (hpub : info.ResolvesPublisher publisher)
    (hdir : dir = Join [c.ModelsDir, publisher, info.ID])
    (hstat : osStat env files dir = some .notExist) :
    (OnDeleteModel env c files payload).RepliedWith
      ⟨false, some (utf8 "model directory not found: " ++ dir),
        some (.obj [(utf8 "dir", .str dir), (utf8 "model_id", .str m)])⟩ ∧
    removals (OnDeleteModel env c files payload).events = [] ∧
    (OnDeleteModel env c files payload).files = files := by
  obtain ⟨pre, hs, hr, hD⟩ := DeleteModel_resolved env c files m info publisher hm hinfo hpub
  rw [← hdir, hstat] at hD
  simp only at hD
  have hm2 : (m == []) = false := by simpa using hm
  have hk : bytesLt (utf8 "dir") (utf8 "model_id") = true := by decide
  simp only [OnDeleteModel, hreq, hm2, hD, Outcome.RepliedWith, Bool.false_eq_true, if_false]
  refine ⟨?_, ?_, trivial⟩
  · have hpre : replies (pre ++ [Event.stat dir]) = [] := by
      have := replies_DeleteModel env c files m
      rw [hD] at this
      exact this
    rw [replies_append, hpre, replies_respondJSON]
    simp [jsonMarshal, encodeResponse_strings _ _ _ _ _ _ hk]
  · simp [removals_append, hr, removals, removals_respondJSON]

/-- C7 (amended): for a non-empty requested model ID, when the daemon's model
info reports no publisher, `DeleteModel` takes as publisher the part of the
id reported by the daemon (`info.ID`) before its first slash and stats
`filepath.Join(ModelsDir, publisher, info.ID)`; when the reported id has no
slash it fails with `unable to determine publisher of model <info.ID>`,
returns the empty directory, stats and removes nothing and leaves the file
system unchanged. -/
theorem C7_publisher_fallback (env : Env) (c : LMStudioClient) (files : FS) (m : Bytes)
    (info : ModelInfo) (hm : m ≠ [])
    (hinfo : (getModelInfo env c m).info = .ok info)
    (hpub : info.Publisher = []) :
    (∀ a b, info.ID = a ++ ch '/' :: b → ch '/' ∉ a →
      (DeleteModel env c files m).dir = Join [c.ModelsDir, a, info.ID] ∧
      stats (DeleteModel env c files m).events = [Join [c.ModelsDir, a, info.ID]]) ∧
    (ch '/' ∉ info.ID →
      (DeleteModel env c files m).err =
        some (utf8 "unable to determine publisher of model " ++ info.ID) ∧
      (DeleteModel env c files m).dir = [] ∧
      stats (DeleteModel env c files m).events = [] ∧
      removals (DeleteModel env c files m).events = [] ∧
      (DeleteModel env c files m).files = files) := by
  constructor
  · intro a b hid hns
    obtain ⟨pre, hs, hr, hD⟩ := DeleteModel_resolved env c files m info a hm hinfo
      (Or.inr ⟨hpub, b, hid, hns⟩)
    rw [hD]
    repeat' split
    all_goals simp [stats_append, hs, stats]
  · intro hns
    have hm2 : (m == []) = false := by simpa using hm
    have hp2 : (info.Publisher == []) = true := by simpa using hpub
    have hsp := splitN2_of_no_slash info.ID hns
    simp [DeleteModel, hm2, hinfo, hp2, hsp, stats_append, removals_append, stats_unloadModel,
      stats_getModelInfo, removals_unloadModel, removals_getModelInfo]


/-- C5, witness: the daemon reports `{id:"acme/foo", publisher:"acme"}` for the
requested `acme/foo`, and `/models/acme/acme/foo` exists beforehand. -/
theorem C5_delete_success_witness :
    (OnDeleteModel (acmeEnv deleteAcmeFoo (utf8 "acme/foo"))
        stubClient (onlyFS (utf8 "/models/acme/acme/foo")) deleteAcmeFoo).RepliedWith
      ⟨true, none, some (.obj [(utf8 "deleted_dir", .str (utf8 "/models/acme/acme/foo")),
        (utf8 "model_id", .str (utf8 "acme/foo"))])⟩ ∧
    removals (OnDeleteModel (acmeEnv deleteAcmeFoo (utf8 "acme/foo"))
        stubClient (onlyFS (utf8 "/models/acme/acme/foo")) deleteAcmeFoo).events =
      [utf8 "/models/acme/acme/foo"] ∧
    (OnDeleteModel (acmeEnv deleteAcmeFoo (utf8 "acme/foo"))
        stubClient (onlyFS (utf8 "/models/acme/acme/foo")) deleteAcmeFoo).files
      (utf8 "/models/acme/acme/foo") = false :=
  C5_delete_success (acmeEnv deleteAcmeFoo (utf8 "acme/foo"))
    stubClient (onlyFS (utf8 "/models/acme/acme/foo")) deleteAcmeFoo (utf8 "acme/foo")
    (utf8 "/models/acme/acme/foo") acmeFoo
    (by decide) (by decide) (by decide) (by decide) (by decide) (by decide) (by decide)

/-- C5, counterexample: `foo` is requested, the daemon reports
`{id:"acme/foo", publisher:"acme"}`, the directory `/models/acme/foo` (models
root, publisher, requested ID) exists and nothing makes a removal fail. The
handler looks for `/models/acme/acme/foo`, replies `ok=false`, removes
nothing, and `/models/acme/foo` still exists afterwards. -/
theorem C5_counterexample_reported_id_differs :
    utf8 "foo" ≠ [] ∧
    (getModelInfo (acmeEnv deleteFoo (utf8 "foo")) stubClient
      (utf8 "foo")).info = .ok ⟨utf8 "acme/foo", utf8 "acme"⟩ ∧
    onlyFS (utf8 "/models/acme/foo") (Join [stubClient.ModelsDir, utf8 "acme", utf8 "foo"]) = true ∧
    (osRemoveAll (acmeEnv deleteFoo (utf8 "foo"))
      (onlyFS (utf8 "/models/acme/foo")) (utf8 "/models/acme/foo")).1 = none ∧
    replies (OnDeleteModel (acmeEnv deleteFoo (utf8 "foo"))
        stubClient (onlyFS (utf8 "/models/acme/foo")) deleteFoo).events =
      [utf8 ("\x7b\"ok\":false,\"error\":\"model directory not found: /models/acme/acme/foo\"," ++
        "\"data\":\x7b\"dir\":\"/models/acme/acme/foo\",\"model_id\":\"foo\"\x7d\x7d")] ∧
    removals (OnDeleteModel (acmeEnv deleteFoo (utf8 "foo"))
        stubClient (onlyFS (utf8 "/models/acme/foo")) deleteFoo).events = [] ∧
    (OnDeleteModel (acmeEnv deleteFoo (utf8 "foo"))
        stubClient (onlyFS (utf8 "/models/acme/foo")) deleteFoo).files
      (utf8 "/models/acme/foo") = true := by
  decide

/-- C6, witness: the daemon reports `{id:"acme/foo", publisher:"acme"}` and the
models directory is empty. -/
theorem C6_directory_not_found_witness :
    (OnDeleteModel (acmeEnv deleteAcmeFoo (utf8 "acme/foo"))
        stubClient emptyFS deleteAcmeFoo).RepliedWith
      ⟨false, some (utf8 "model directory not found: " ++ utf8 "/models/acme/acme/foo"),
        some (.obj [(utf8 "dir", .str (utf8 "/models/acme/acme/foo")),
          (utf8 "model_id", .str (utf8 "acme/foo"))])⟩ ∧
    removals (OnDeleteModel (acmeEnv deleteAcmeFoo (utf8 "acme/foo"))
        stubClient emptyFS deleteAcmeFoo).events = [] ∧
    (OnDeleteModel (acmeEnv deleteAcmeFoo (utf8 "acme/foo"))
        stubClient emptyFS deleteAcmeFoo).files = emptyFS :=
  C6_directory_not_found (acmeEnv deleteAcmeFoo (utf8 "acme/foo"))
    stubClient emptyFS deleteAcmeFoo (utf8 "acme/foo") (utf8 "/models/acme/acme/foo") (utf8 "acme")
    acmeFoo (by decide) (by decide) (by decide) (Or.inl ⟨by decide, by decide⟩) (by decide)
    (by decide)

/-- C7, witness: the daemon reports no publisher, once with the id `acme/foo`
and once with the id `foo`. -/
theorem C7_publisher_fallback_witness :
    ((DeleteModel (noPublisherEnv (utf8 "acme/foo")) stubClient emptyFS
        (utf8 "acme/foo")).dir = Join [stubClient.ModelsDir, utf8 "acme", utf8 "acme/foo"] ∧
      stats (DeleteModel (noPublisherEnv (utf8 "acme/foo")) stubClient emptyFS
        (utf8 "acme/foo")).events = [Join [stubClient.ModelsDir, utf8 "acme", utf8 "acme/foo"]]) ∧
    ((DeleteModel (noPublisherEnv (utf8 "foo")) stubClient emptyFS
        (utf8 "foo")).err = some (utf8 "unable to determine publisher of model " ++ utf8 "foo") ∧
      (DeleteModel (noPublisherEnv (utf8 "foo")) stubClient emptyFS
        (utf8 "foo")).dir = [] ∧
      stats (DeleteModel (noPublisherEnv (utf8 "foo")) stubClient emptyFS
        (utf8 "foo")).events = [] ∧
      removals (DeleteModel (noPublisherEnv (utf8 "foo")) stubClient emptyFS
        (utf8 "foo")).events = [] ∧
      (DeleteModel (noPublisherEnv (utf8 "foo")) stubClient emptyFS
        (utf8 "foo")).files = emptyFS) :=
  ⟨(C7_publisher_fallback (noPublisherEnv (utf8 "acme/foo")) stubClient emptyFS
      (utf8 "acme/foo") ⟨utf8 "acme/foo", []⟩ (by decide) (by decide) rfl).1
      (utf8 "acme") (utf8 "foo") (by decide) (by decide),
    (C7_publisher_fallback (noPublisherEnv (utf8 "foo")) stubClient emptyFS
      (utf8 "foo") ⟨utf8 "foo", []⟩ (by decide) (by decide) rfl).2 (by decide)⟩

/-- C7, counterexample: `foo`, which has no slash, is requested and the daemon
reports `{id:"acme/foo"}` without a publisher. `DeleteModel` does not fail: it
takes `acme` from the reported id, stats and removes `/models/acme/acme/foo`
and returns that directory with no error. -/
theorem C7_counterexample_requested_id_without_slash :
    ch '/' ∉ utf8 "foo" ∧
    (getModelInfo (noPublisherEnv (utf8 "acme/foo")) stubClient
      (utf8 "foo")).info = .ok ⟨utf8 "acme/foo", []⟩ ∧
    (DeleteModel (noPublisherEnv (utf8 "acme/foo")) stubClient
      (onlyFS (utf8 "/models/acme/acme/foo")) (utf8 "foo")).err = none ∧
    (DeleteModel (noPublisherEnv (utf8 "acme/foo")) stubClient
      (onlyFS (utf8 "/models/acme/acme/foo")) (utf8 "foo")).dir = utf8 "/models/acme/acme/foo" ∧
    stats (DeleteModel (noPublisherEnv (utf8 "acme/foo")) stubClient
      (onlyFS (utf8 "/models/acme/acme/foo")) (utf8 "foo")).events =
      [utf8 "/models/acme/acme/foo"] ∧
    removals (DeleteModel (noPublisherEnv (utf8 "acme/foo")) stubClient
      (onlyFS (utf8 "/models/acme/acme/foo")) (utf8 "foo")).events =
      [utf8 "/models/acme/acme/foo"] := by
  decide


/-! ### The scanner and Compact -/

@[simp] theorem scanContinue_eq : scanContinue = 0 := rfl
@[simp] theorem scanBeginLiteral_eq : scanBeginLiteral = 1 := rfl
@[simp] theorem scanBeginObject_eq : scanBeginObject = 2 := rfl
@[simp] theorem scanObjectKey_eq : scanObjectKey = 3 := rfl
@[simp] theorem scanObjectValue_eq : scanObjectValue = 4 := rfl
@[simp] theorem scanEndObject_eq : scanEndObject = 5 := rfl
@[simp] theorem scanBeginArray_eq : scanBeginArray = 6 := rfl
@[simp] theorem scanArrayValue_eq : scanArrayValue = 7 := rfl
@[simp] theorem scanEndArray_eq : scanEndArray = 8 := rfl
@[simp] theorem scanSkipSpace_eq : scanSkipSpace = 9 := rfl
@[simp] theorem scanEnd_eq : scanEnd = 10 := rfl
@[simp] theorem scanError_eq : scanError = 11 := rfl

theorem reset_inv (d : Nat) : (Scanner.reset d).Inv := by simp [Scanner.Inv, Scanner.reset]

theorem error_good (s : Scanner) (c : UInt8) : StepGood c s.error := by
  simp [StepGood, Scanner.error, Scanner.Inv]

theorem stateEndTop_good (s : Scanner) (c : UInt8) (h1 : s.err = false)
    (h2 : s.step = .stateEndTop) :
    StepGood c (stateEndTop s c) := by
  simp only [stateEndTop]
  split
  · next h => simp_all [StepGood, Scanner.error, Scanner.Inv]
  · next h => simp_all [StepGood, Scanner.Inv]

theorem stateEndValue_good (s : Scanner) (c : UInt8) (h1 : s.err = false) :
    StepGood c (stateEndValue s c) := by
  simp only [stateEndValue]
  split
  · exact stateEndTop_good _ c (by simpa using h1) rfl
  · split
    · next h => simp_all [StepGood, Scanner.Inv]
    · split
      all_goals (repeat' split)
      all_goals first
        | exact error_good _ _
        | (simp_all [StepGood, Scanner.Inv, Scanner.popParseState]; done)
        | (simp only [StepGood, Scanner.Inv, Scanner.popParseState]; split <;> simp_all)

theorem push_good (s : Scanner) (c : UInt8) (p : ParseState) (k : Nat) (h1 : s.err = false)
    (h2 : s.step ≠ .stateError) (hk : k < scanSkipSpace) :
    StepGood c (s.pushParseState p k) := by
  simp only [Scanner.pushParseState]
  split
  · have hk9 : k < 9 := hk
    refine ⟨by simp_all [Scanner.Inv], ?_, ?_, ?_, ?_⟩
    · intro h
      have : k = 9 := h
      omega
    · intro h
      have : k = 10 := h
      omega
    · intro h
      have : k = 11 := h
      omega
    · show k ≤ 11
      omega
  · exact error_good _ _

theorem stateBeginValue_good (s : Scanner) (c : UInt8) (h1 : s.err = false)
    (h2 : s.step ≠ .stateError) : StepGood c (stateBeginValue s c) := by
  simp only [stateBeginValue]
  repeat' split
  all_goals first
    | exact error_good _ _
    | exact push_good _ _ _ _ (by simpa using h1) (by simp) (by decide)
    | (simp_all [StepGood, Scanner.Inv])

theorem run_good (s : Scanner) (c : UInt8) (h : s.Inv) : StepGood c (s.run c) := by
  by_cases he : s.err = true
  · have hs : s.step = .stateError := h.mp he
    simp [Scanner.run, hs, StepGood, he, h]
  · have he : s.err = false := by simpa using he
    have hs : s.step ≠ .stateError := fun e => by simp [h.mpr e] at he
    simp only [Scanner.run]
    split
    all_goals try simp only [stateBeginValueOrEmpty, stateBeginString, stateBeginStringOrEmpty,
      stateInString, stateInStringEsc, stateInStringEscUx, stateNeg, state0, state1, stateDot,
      stateDot0, stateE, stateESign, stateE0, stateKeyword]
    all_goals (repeat' split)
    all_goals first
      | exact error_good _ _
      | exact stateEndValue_good _ _ (by simpa using he)
      | exact stateEndTop_good _ _ he (by assumption)
      | exact stateBeginValue_good _ _ he hs
      | (simp_all [StepGood, Scanner.Inv])


theorem run_of_err (s : Scanner) (c : UInt8) (h : s.Inv) (he : s.err = true) :
    s.run c = (scanError, s) := by
  have hs : s.step = .stateError := h.mp he
  simp [Scanner.run, hs]

theorem eof_of_err (s : Scanner) (he : s.err = true) : s.eof.1 = scanError := by
  simp [Scanner.eof, he]

theorem compactEscape_scan (src : Bytes) (escape : Bool) (c : UInt8) (rest : Bytes) (i : Nat)
    (st : CompactState) : (compactEscape src escape c rest i st).scan = st.scan := by
  simp only [compactEscape]
  repeat' split
  all_goals rfl

theorem compactLoop_scan (src : Bytes) (escape : Bool) (rest : Bytes) :
    ∀ (i : Nat) (st : CompactState),
      (compactLoop src escape rest i st).scan = (checkValidLoop rest st.scan).2 := by
  induction rest with
  | nil => intro i st; rfl
  | cons c rest ih =>
    intro i st
    simp only [compactLoop, checkValidLoop, compactEscape_scan]
    by_cases h11 : (st.scan.run c).1 = scanError
    · simp [h11]
    · have hb : ((st.scan.run c).1 == scanError) = false := by simpa using h11
      simp only [hb, Bool.false_eq_true, if_false]
      split
      · rw [ih]
      · rw [ih]

theorem checkValidLoop_inv (rest : Bytes) :
    ∀ s : Scanner, s.Inv → (checkValidLoop rest s).2.Inv ∧
      ((checkValidLoop rest s).1 = false → (checkValidLoop rest s).2.err = true) := by
  induction rest with
  | nil => intro s h; simp [checkValidLoop, h]
  | cons c rest ih =>
    intro s h
    obtain ⟨g1, _, _, g4, _⟩ := run_good s c h
    simp only [checkValidLoop]
    split
    · next h11 =>
      simp only [beq_iff_eq] at h11
      exact ⟨g1, fun _ => g4 h11⟩
    · exact ih _ g1

/-- `Marshal` accepts a raw message exactly when it is valid JSON that keeps
the document within the nesting limit. -/
theorem appendCompact_isSome (src : Bytes) (escape : Bool) (d : Nat) :
    (appendCompact src escape d).isSome = checkValidAt d src := by
  have hs := compactLoop_scan src escape src 0 ⟨[], 0, Scanner.reset d⟩
  obtain ⟨_, hv⟩ := checkValidLoop_inv src (Scanner.reset d) (reset_inv d)
  simp only [appendCompact, checkValidAt, hs]
  cases h1 : (checkValidLoop src (Scanner.reset d)).1
  · have := eof_of_err _ (hv h1)
    simp [this]
  · split <;> simp_all

theorem checkValidLoop_of_err (rest : Bytes) (s : Scanner) (h : s.Inv) (he : s.err = true) :
    (checkValidLoop rest s).2.err = true := by
  cases rest with
  | nil => exact he
  | cons c rest => simp [checkValidLoop, run_of_err s c h he, he]

/-! ### String literals, as the scanner sees them -/

theorem isSpace_ne_quote (c : UInt8) (h : isSpace c = true) : (c == ch '"') = false := by
  simp only [isSpace, Bool.and_eq_true, Bool.or_eq_true, beq_iff_eq] at h
  rcases h with ⟨_, ((h | h) | h) | h⟩ <;> subst h <;> decide

theorem error_tracks (q : StringPos) (s : Scanner) (c : UInt8) : StepTracks q c s.error :=
  Or.inl (by simp [Scanner.error])

theorem next_outside (c : UInt8) (h : (c == ch '"') = false) :
    StringPos.next .outside c = .outside := by
  simp [StringPos.next, h]

theorem stateEndTop_tracks (s : Scanner) (c : UInt8) (h : s.step.stringPos = .outside) :
    StepTracks .outside c (stateEndTop s c) := by
  simp only [stateEndTop]
  split
  · next hc => exact Or.inl (by simp [Scanner.error])
  · next hc =>
    have hc : isSpace c = true := by simpa using hc
    exact Or.inr ⟨by rw [next_outside c (isSpace_ne_quote c hc)]; exact h, fun _ => rfl⟩

theorem popParseState_stringPos (s : Scanner) : s.popParseState.step.stringPos = .outside := by
  simp only [Scanner.popParseState]
  split <;> rfl

theorem stateEndValue_tracks (s : Scanner) (c : UInt8) :
    StepTracks .outside c (stateEndValue s c) := by
  simp only [stateEndValue]
  split
  · exact stateEndTop_tracks _ c rfl
  · split
    · next hc => exact Or.inr ⟨by rw [next_outside c (isSpace_ne_quote c hc)]; rfl, fun _ => rfl⟩
    · split
      all_goals (repeat' split)
      all_goals first
        | exact error_tracks _ _ _
        | (next hc =>
            have hc2 := beq_iff_eq.mp hc
            subst hc2
            exact Or.inr ⟨by rw [next_outside _ (by decide)]; first | rfl | exact popParseState_stringPos _,
              fun _ => rfl⟩)

theorem push_tracks (s : Scanner) (c : UInt8) (p : ParseState) (k : Nat)
    (h : s.step.stringPos = .outside) (hc : (c == ch '"') = false) :
    StepTracks .outside c (s.pushParseState p k) := by
  simp only [Scanner.pushParseState]
  split
  · exact Or.inr ⟨by rw [next_outside c hc]; exact h, fun _ => rfl⟩
  · exact error_tracks _ _ _

theorem stateBeginString_tracks (s : Scanner) (c : UInt8) (h : s.step.stringPos = .outside) :
    StepTracks .outside c (stateBeginString s c) := by
  simp only [stateBeginString]
  repeat' split
  · next hc => exact Or.inr ⟨by rw [next_outside c (isSpace_ne_quote c hc)]; exact h, fun _ => rfl⟩
  · next hc => exact Or.inr ⟨by simp [StringPos.next, hc, Step.stringPos], fun _ => rfl⟩
  · exact error_tracks _ _ _

theorem stateBeginValue_tracks (s : Scanner) (c : UInt8) (h : s.step.stringPos = .outside) :
    StepTracks .outside c (stateBeginValue s c) := by
  simp only [stateBeginValue]
  split
  · next hc =>
    refine Or.inr ⟨?_, fun _ => rfl⟩
    rw [next_outside c (isSpace_ne_quote c hc)]
    exact h
  · split
    · next hc => exact push_tracks _ c _ _ rfl (by rw [beq_iff_eq.mp hc]; decide)
    · split
      · next hc => exact push_tracks _ c _ _ rfl (by rw [beq_iff_eq.mp hc]; decide)
      · split
        · next hc =>
          refine Or.inr ⟨?_, fun _ => rfl⟩
          simp [StringPos.next, hc, Step.stringPos]
        · next hq =>
          have hq : (c == ch '"') = false := by simpa using hq
          repeat' split
          all_goals first
            | exact error_tracks _ _ _
            | (refine Or.inr ⟨?_, fun _ => rfl⟩
               rw [next_outside c hq]
               rfl)

theorem stateInString_tracks (s : Scanner) (c : UInt8) (hs : s.step = .stateInString) :
    StepTracks .inside c (stateInString s c) := by
  simp only [stateInString]
  split
  · next h1 =>
    refine Or.inr ⟨?_, ?_⟩
    · simp [StringPos.next, h1, Step.stringPos]
    · simp
  · next h1 =>
    have h1 : (c == ch '"') = false := by simpa using h1
    split
    · next h2 =>
      refine Or.inr ⟨?_, ?_⟩
      · simp [StringPos.next, h1, h2, Step.stringPos]
      · simp
    · next h2 =>
      have h2 : (c == ch '\\') = false := by simpa using h2
      split
      · exact error_tracks _ _ _
      · refine Or.inr ⟨?_, ?_⟩
        · simp [StringPos.next, h1, h2, Step.stringPos, hs]
        · simp

theorem run_tracks (s : Scanner) (c : UInt8) (h : s.Inv) :
    StepTracks s.step.stringPos c (s.run c) := by
  simp only [Scanner.run]
  split
  all_goals (rename_i hs; simp only [hs, Step.stringPos])
  all_goals try simp only [stateBeginValueOrEmpty, stateBeginStringOrEmpty,
      stateInStringEsc, stateInStringEscUx, stateNeg, state0, state1, stateDot,
      stateDot0, stateE, stateESign, stateE0, stateKeyword]
  all_goals (repeat' split)
  all_goals first
    | exact error_tracks _ _ _
    | exact stateEndValue_tracks _ _
    | exact stateInString_tracks _ _ hs
    | (exact stateEndTop_tracks _ _ (by simp_all [Step.stringPos]))
    | (exact stateBeginValue_tracks _ _ (by simp_all [Step.stringPos]))
    | (exact stateBeginString_tracks _ _ (by simp_all [Step.stringPos]))
    | (refine Or.inl ?_
       simp_all [Scanner.Inv]
       done)
    | (rename_i hx
       refine Or.inr ⟨?_, ?_⟩
       · by_cases hq : c = ch '"'
         · subst hq
           first
             | exact absurd hx (by decide)
             | simp [StringPos.next, Step.stringPos]
         · by_cases hb : c = ch '\\'
           · subst hb
             first
               | exact absurd hx (by decide)
               | simp [StringPos.next, Step.stringPos]
           · simp [StringPos.next, Step.stringPos, hq, hb, hs]
       · simp_all)

theorem compactEscape_keeps (src : Bytes) (q : StringPos) (c : UInt8) (rest : Bytes) (i : Nat)
    (st : CompactState) (hk : compactKeepsFrom q (c :: rest) = true) :
    compactEscape src true c rest i st = st := by
  simp only [compactKeepsFrom, Bool.and_eq_true, Bool.not_eq_true', bne_iff_ne, ne_eq] at hk
  obtain ⟨⟨⟨⟨⟨_, h1⟩, h2⟩, h3⟩, h4⟩, _⟩ := hk
  simp only [compactEscape]
  have e1 : (true && (c == ch '<' || c == ch '>' || c == ch '&')) = false := by simp [h1, h2, h3]
  rw [e1]
  simp only [Bool.false_eq_true, if_false]
  split
  · next h =>
    exfalso
    revert h h4
    generalize (c == 0xE2) = x1
    generalize (rest.headD 0 == 0x80) = x2
    generalize ((rest.drop 1).headD 0 &&& 0xFE == 0xA8) = x3
    generalize decide (i + 2 < src.length) = x4
    cases x1 <;> cases x2 <;> cases x3 <;> cases x4 <;> simp
  · rfl

theorem compactLoop_keeps (src : Bytes) (rest : Bytes) :
    ∀ (i : Nat) (st : CompactState), st.scan.Inv → st.dst = [] → st.start = 0 →
      compactKeepsFrom st.scan.step.stringPos rest = true →
      (compactLoop src true rest i st).scan.err = true ∨
        ((compactLoop src true rest i st).dst = [] ∧
          (compactLoop src true rest i st).start = 0) := by
  induction rest with
  | nil => intro i st _ hd hs _; exact Or.inr ⟨hd, hs⟩
  | cons c rest ih =>
    intro i st hinv hd hs hk
    have hk2 : compactKeepsFrom (st.scan.step.stringPos.next c) rest = true := by
      simp only [compactKeepsFrom, Bool.and_eq_true] at hk
      exact hk.2
    have hsp : (st.scan.step.stringPos == .outside && isSpace c) = false := by
      simp only [compactKeepsFrom, Bool.and_eq_true, Bool.not_eq_true'] at hk
      exact hk.1.1.1.1.1
    obtain ⟨g1, g2, g3, g4, g5⟩ := run_good st.scan c hinv
    have gt := run_tracks st.scan c hinv
    simp only [compactLoop, compactEscape_keeps src _ c rest i st hk]
    rcases gt with gt | ⟨gt1, gt2⟩
    · -- the scanner has died: whatever the loop does next, it ends with the error
      left
      split
      · split
        · exact gt
        · rw [compactLoop_scan]
          exact checkValidLoop_of_err _ _ g1 gt
      · rw [compactLoop_scan]
        exact checkValidLoop_of_err _ _ g1 gt
    · split
      · next h9 =>
        split
        · next h11 =>
          simp only [beq_iff_eq] at h11
          exact Or.inl (g4 h11)
        · next h11 =>
          simp only [beq_iff_eq] at h11
          have hout := gt2 h9
          have hsp2 : isSpace c = false := by simpa [hout] using hsp
          have h10 : (st.scan.run c).1 = scanEnd ∨ (st.scan.run c).1 = scanSkipSpace := by
            have : (st.scan.run c).1 ≥ 9 := h9
            have : (st.scan.run c).1 ≠ 11 := h11
            have : (st.scan.run c).1 ≤ 11 := g5
            show (st.scan.run c).1 = 10 ∨ (st.scan.run c).1 = 9
            omega
          rcases h10 with h10 | h10
          · left
            rw [compactLoop_scan]
            exact checkValidLoop_of_err _ _ g1 (g3 h10 hsp2)
          · rw [g2 h10] at hsp2
            cases hsp2
      · exact ih _ _ g1 hd hs (by rw [gt1]; exact hk2)

/-- A valid JSON text without any byte that compaction rewrites or drops
passes through `Marshal` unchanged. -/
theorem appendCompact_keeps (src : Bytes) (d : Nat) (hv : checkValidAt d src = true)
    (hk : compactKeeps src = true) : appendCompact src true d = some src := by
  have hsome := appendCompact_isSome src true d
  rw [hv] at hsome
  have hl := compactLoop_keeps src src 0 ⟨[], 0, Scanner.reset d⟩ (reset_inv d) rfl rfl hk
  simp only [appendCompact] at hsome ⊢
  split
  · next h => simp_all
  · next h =>
    rcases hl with hl | ⟨hd, hs⟩
    · exact absurd (by simpa using eof_of_err _ hl) h
    · simp [hd, hs]

/-! ### The nesting limit: a text valid where it stands is valid on its own -/

theorem error_same (s s0 : Scanner) : SameStep s.error s0.error := by
  intro h
  simp [Scanner.error] at h

theorem push_same (s s0 : Scanner) (p : ParseState) (k : Nat) (h : s.Above s0) :
    SameStep (s.pushParseState p k) (s0.pushParseState p k) := by
  obtain ⟨h1, h2, h3, h4, h5⟩ := h
  simp only [Scanner.pushParseState, h3]
  split
  · next hle =>
    have : (p :: s.parseState).length + s0.depth ≤ maxNestingDepth := by omega
    rw [if_pos this]
    intro _
    exact ⟨rfl, by simp_all [Scanner.Above]⟩
  · intro hne
    simp [Scanner.error] at hne

theorem stateBeginValue_same (s s0 : Scanner) (c : UInt8) (h : s.Above s0) :
    SameStep (stateBeginValue s c) (stateBeginValue s0 c) := by
  have h0 := h
  obtain ⟨h1, h2, h3, h4, h5⟩ := h
  unfold stateBeginValue
  by_cases k1 : isSpace c = true
  · rw [if_pos k1, if_pos k1]
    intro _; exact ⟨rfl, h0⟩
  rw [if_neg k1, if_neg k1]
  by_cases k2 : (c == ch '{') = true
  · rw [if_pos k2, if_pos k2]
    exact push_same _ _ _ _ ⟨rfl, h2, h3, h4, h5⟩
  rw [if_neg k2, if_neg k2]
  by_cases k3 : (c == ch '[') = true
  · rw [if_pos k3, if_pos k3]
    exact push_same _ _ _ _ ⟨rfl, h2, h3, h4, h5⟩
  rw [if_neg k3, if_neg k3]
  split_ifs
  all_goals first
    | exact error_same _ _
    | (intro _; exact ⟨rfl, rfl, h2, h3, h4, h5⟩)

theorem stateEndTop_same (s s0 : Scanner) (c : UInt8) (h : s.Above s0) :
    SameStep (stateEndTop s c) (stateEndTop s0 c) := by
  obtain ⟨h1, h2, h3, h4, h5⟩ := h
  intro _
  unfold stateEndTop
  split_ifs
  · exact ⟨rfl, rfl, h2, h3, rfl, h5⟩
  · exact ⟨rfl, h1, h2, h3, h4, h5⟩

theorem popParseState_same (s s0 : Scanner) (h : s.Above s0) :
    s.popParseState.Above s0.popParseState := by
  obtain ⟨h1, h2, h3, h4, h5⟩ := h
  unfold Scanner.popParseState
  simp only [h3]
  split_ifs
  · exact ⟨rfl, rfl, rfl, h4, h5⟩
  · exact ⟨rfl, h2, rfl, h4, h5⟩

theorem stateEndValue_same (s s0 : Scanner) (c : UInt8) (h : s.Above s0) :
    SameStep (stateEndValue s c) (stateEndValue s0 c) := by
  have hp := popParseState_same s s0 h
  obtain ⟨h1, h2, h3, h4, h5⟩ := h
  unfold stateEndValue
  rw [h3]
  cases hps : s.parseState with
  | nil => exact stateEndTop_same _ _ c ⟨rfl, rfl, rfl, h4, h5⟩
  | cons ps below =>
    simp only []
    cases ps
    all_goals simp only []
    all_goals split_ifs
    all_goals first
      | exact error_same _ _
      | (intro _; exact ⟨rfl, hp⟩)
      | (intro _; exact ⟨rfl, rfl, h2, rfl, h4, h5⟩)

theorem run_same (s s0 : Scanner) (c : UInt8) (h : s.Above s0) :
    SameStep (s.run c) (s0.run c) := by
  have h0 := h
  obtain ⟨h1, h2, h3, h4, h5⟩ := h
  unfold Scanner.run
  rw [h1]
  cases s.step
  all_goals simp only []
  all_goals try unfold stateBeginValueOrEmpty
  all_goals try unfold stateBeginStringOrEmpty
  all_goals try unfold stateBeginString
  all_goals try unfold stateInString
  all_goals try unfold stateInStringEsc
  all_goals try unfold stateInStringEscUx
  all_goals try unfold stateNeg
  all_goals try unfold state1
  all_goals try unfold state0
  all_goals try unfold stateDot
  all_goals try unfold stateDot0
  all_goals try unfold stateE
  all_goals try unfold stateESign
  all_goals try unfold stateE0
  all_goals try unfold stateKeyword
  all_goals try split_ifs
  all_goals first
    | exact error_same _ _
    | exact stateEndValue_same _ _ _ h0
    | exact stateEndTop_same _ _ _ h0
    | exact stateBeginValue_same _ _ _ h0
    | (exact stateEndValue_same _ _ _ ⟨h1, h2, by rw [h3], h4, h5⟩)
    | (intro _; exact ⟨rfl, h0⟩)
    | (intro _; exact ⟨rfl, rfl, h2, h3, h4, h5⟩)

theorem checkValidLoop_same (data : Bytes) :
    ∀ s s0 : Scanner, s.Above s0 → (checkValidLoop data s).1 = true →
      (checkValidLoop data s0).1 = true ∧
        (checkValidLoop data s).2.Above (checkValidLoop data s0).2 := by
  induction data with
  | nil => intro s s0 h _; exact ⟨rfl, h⟩
  | cons c data ih =>
    intro s s0 h hv
    have hr := run_same s s0 c h
    simp only [checkValidLoop] at hv ⊢
    by_cases h11 : (s.run c).1 = scanError
    · simp [h11] at hv
    · obtain ⟨e1, e2⟩ := hr h11
      have hb : ((s.run c).1 == scanError) = false := by simpa using h11
      rw [hb] at hv
      rw [e1, hb]
      exact ih _ _ e2 hv

theorem stateEndValue_endTop (s : Scanner) (c : UInt8) (e : Bool)
    (he : s.endTop = e) (h : (stateEndValue s c).1 = scanError) :
    (stateEndValue s c).2.endTop = e := by
  unfold stateEndValue at h ⊢
  cases hps : s.parseState with
  | nil =>
    rw [hps] at h
    simp only [stateEndTop] at h
    split_ifs at h <;> simp at h
  | cons ps below =>
    rw [hps] at h
    cases ps
    all_goals simp only [] at h ⊢
    all_goals split_ifs at h ⊢
    all_goals first
      | exact he
      | simp at h

theorem push_endTop (s : Scanner) (p : ParseState) (k : Nat) :
    (s.pushParseState p k).2.endTop = s.endTop := by
  unfold Scanner.pushParseState
  simp only []
  split_ifs <;> rfl

theorem stateBeginValue_endTop (s : Scanner) (c : UInt8) :
    (stateBeginValue s c).2.endTop = s.endTop := by
  unfold stateBeginValue
  by_cases k1 : isSpace c = true
  · rw [if_pos k1]
  rw [if_neg k1]
  by_cases k2 : (c == ch '{') = true
  · rw [if_pos k2]
    exact push_endTop _ _ _
  rw [if_neg k2]
  by_cases k3 : (c == ch '[') = true
  · rw [if_pos k3]
    exact push_endTop _ _ _
  rw [if_neg k3]
  split_ifs
  all_goals rfl

theorem run_error_endTop (s : Scanner) (c : UInt8) (h : (s.run c).1 = scanError) :
    (s.run c).2.endTop = s.endTop := by
  unfold Scanner.run at h ⊢
  obtain ⟨step, endTop, ps, err, depth⟩ := s
  cases step
  all_goals simp only [] at h ⊢
  case stateBeginValue => exact stateBeginValue_endTop _ _
  case stateEndValue => exact stateEndValue_endTop _ _ _ rfl h
  case stateBeginValueOrEmpty =>
    unfold stateBeginValueOrEmpty at h ⊢
    split_ifs at h ⊢
    · rfl
    · exact stateEndValue_endTop _ _ _ rfl h
    · exact stateBeginValue_endTop _ _
  case stateBeginStringOrEmpty =>
    unfold stateBeginStringOrEmpty at h ⊢
    split_ifs at h ⊢
    · rfl
    · exact stateEndValue_endTop _ _ _ rfl h
    · unfold stateBeginString
      split_ifs <;> rfl
  all_goals try unfold stateBeginString at h ⊢
  all_goals try unfold stateInString at h ⊢
  all_goals try unfold stateInStringEsc at h ⊢
  all_goals try unfold stateInStringEscUx at h ⊢
  all_goals try unfold stateNeg at h ⊢
  all_goals try unfold state1 at h ⊢
  all_goals try unfold state0 at h ⊢
  all_goals try unfold stateDot at h ⊢
  all_goals try unfold stateDot0 at h ⊢
  all_goals try unfold stateE at h ⊢
  all_goals try unfold stateESign at h ⊢
  all_goals try unfold stateE0 at h ⊢
  all_goals try unfold stateKeyword at h ⊢
  all_goals try unfold stateEndTop at h ⊢
  all_goals try split_ifs at h ⊢
  all_goals first
    | exact stateEndValue_endTop _ _ _ rfl h
    | rfl

theorem eof_same (s s0 : Scanner) (h : s.Above s0) (hv : s.eof.1 ≠ scanError) :
    s0.eof.1 ≠ scanError := by
  have hr := run_same s s0 (ch ' ') h
  have hk := run_error_endTop s (ch ' ')
  obtain ⟨h1, h2, h3, h4, h5⟩ := h
  unfold Scanner.eof at hv ⊢
  rw [h4, h2]
  split_ifs at hv ⊢
  · exact hv
  · simp
  · simp only [] at hv ⊢
    split_ifs at hv with ht
    · by_cases h11 : (s.run (ch ' ')).1 = scanError
      · rw [hk h11] at ht
        contradiction
      · obtain ⟨_, _, e2, _⟩ := hr h11
        rw [e2, ht]
        simp
    · simp at hv

/-- A text that is valid where it stands in a document is valid on its own. -/
theorem checkValidAt_checkValid (d : Nat) (data : Bytes) (h : checkValidAt d data = true) :
    checkValid data = true := by
  simp only [checkValid, checkValidAt, Bool.and_eq_true, bne_iff_ne, ne_eq] at h ⊢
  have ha : (Scanner.reset d).Above (Scanner.reset 0) := ⟨rfl, rfl, rfl, rfl, Nat.zero_le _⟩
  obtain ⟨e1, e2⟩ := checkValidLoop_same data _ _ ha h.1
  exact ⟨e1, eof_same _ _ e2 h.2⟩

/-! ### The nesting limit at work: arrays nested in one another -/

theorem open_first (d : Nat) (h : 1 + d ≤ maxNestingDepth) :
    (Scanner.reset d).run (ch '[') = (scanBeginArray, arraysOpen .stateBeginValueOrEmpty 1 d) := by
  have e1 : isSpace (ch '[') = false := by decide
  have e2 : (ch '[' == ch '{') = false := by decide
  have h2 : ([ParseState.parseArrayValue].length + d ≤ maxNestingDepth) := by
    simpa [Nat.add_comm] using h
  simp only [Scanner.run, Scanner.reset, stateBeginValue, e1, e2, beq_self_eq_true, if_true,
    Bool.false_eq_true, if_false, Scanner.pushParseState, if_pos h2, arraysOpen,
    List.replicate]

theorem open_first_deep (d : Nat) (h : ¬ 1 + d ≤ maxNestingDepth) :
    ((Scanner.reset d).run (ch '[')).1 = scanError := by
  have e1 : isSpace (ch '[') = false := by decide
  have e2 : (ch '[' == ch '{') = false := by decide
  have h2 : ¬ ([ParseState.parseArrayValue].length + d ≤ maxNestingDepth) := by
    simpa [Nat.add_comm] using h
  simp only [Scanner.run, Scanner.reset, stateBeginValue, e1, e2, beq_self_eq_true, if_true,
    Bool.false_eq_true, if_false, Scanner.pushParseState, if_neg h2, Scanner.error]

theorem open_next (k d : Nat) (h : k + 1 + d ≤ maxNestingDepth) :
    (arraysOpen .stateBeginValueOrEmpty k d).run (ch '[') =
      (scanBeginArray, arraysOpen .stateBeginValueOrEmpty (k + 1) d) := by
  have e1 : isSpace (ch '[') = false := by decide
  have e2 : (ch '[' == ch '{') = false := by decide
  have e3 : (ch '[' == ch ']') = false := by decide
  have h2 : ((ParseState.parseArrayValue :: List.replicate k ParseState.parseArrayValue).length
      + d ≤ maxNestingDepth) := by
    simpa using h
  simp only [Scanner.run, arraysOpen, stateBeginValueOrEmpty, stateBeginValue, e1, e2, e3,
    beq_self_eq_true, if_true, Bool.false_eq_true, if_false, Scanner.pushParseState, if_pos h2,
    List.replicate]

theorem open_next_deep (k d : Nat) (h : ¬ k + 1 + d ≤ maxNestingDepth) :
    ((arraysOpen .stateBeginValueOrEmpty k d).run (ch '[')).1 = scanError := by
  have e1 : isSpace (ch '[') = false := by decide
  have e2 : (ch '[' == ch '{') = false := by decide
  have e3 : (ch '[' == ch ']') = false := by decide
  have h2 : ¬ ((ParseState.parseArrayValue :: List.replicate k ParseState.parseArrayValue).length
      + d ≤ maxNestingDepth) := by
    simpa using h
  simp only [Scanner.run, arraysOpen, stateBeginValueOrEmpty, stateBeginValue, e1, e2, e3,
    beq_self_eq_true, if_true, Bool.false_eq_true, if_false, Scanner.pushParseState, if_neg h2,
    Scanner.error]

theorem close_step (step : Step) (k d : Nat)
    (hs : step = .stateBeginValueOrEmpty ∨ step = .stateEndValue) :
    (arraysOpen step (k + 1) d).run (ch ']') =
      (scanEndArray, if k = 0 then atEndTop d else arraysOpen .stateEndValue k d) := by
  have e1 : isSpace (ch ']') = false := by decide
  have e2 : (ch ']' == ch ',') = false := by decide
  rcases hs with hs | hs <;> subst hs
  all_goals
    cases k with
    | zero =>
      simp [Scanner.run, arraysOpen, stateBeginValueOrEmpty, stateEndValue, e1, e2,
        Scanner.popParseState, List.replicate, atEndTop]
    | succ k =>
      simp [Scanner.run, arraysOpen, stateBeginValueOrEmpty, stateEndValue, e1, e2,
        Scanner.popParseState, List.replicate]

theorem checkValidLoop_opens (d : Nat) (rest : Bytes) (m : Nat) :
    ∀ k, k + m + d ≤ maxNestingDepth →
      checkValidLoop (List.replicate m (ch '[') ++ rest) (arraysOpen .stateBeginValueOrEmpty k d) =
        checkValidLoop rest (arraysOpen .stateBeginValueOrEmpty (k + m) d) := by
  induction m with
  | zero => intro k _; rfl
  | succ m ih =>
    intro k h
    have h1 : k + 1 + d ≤ maxNestingDepth := by omega
    have e : (scanBeginArray == scanError) = false := by decide
    rw [List.replicate_succ, List.cons_append, checkValidLoop, open_next k d h1]
    simp only [e, Bool.false_eq_true, if_false]
    rw [ih (k + 1) (by omega)]
    have : k + 1 + m = k + (m + 1) := by omega
    rw [this]

theorem checkValidLoop_opens_deep (d : Nat) (rest : Bytes) (m : Nat) :
    ∀ k, k + d ≤ maxNestingDepth → ¬ k + m + d ≤ maxNestingDepth →
      (checkValidLoop (List.replicate m (ch '[') ++ rest)
        (arraysOpen .stateBeginValueOrEmpty k d)).1 = false := by
  induction m with
  | zero => intro k h0 h; exact absurd h0 h
  | succ m ih =>
    intro k _ h
    have e : (scanBeginArray == scanError) = false := by decide
    rw [List.replicate_succ, List.cons_append, checkValidLoop]
    by_cases h1 : k + 1 + d ≤ maxNestingDepth
    · rw [open_next k d h1]
      simp only [e, Bool.false_eq_true, if_false]
      exact ih (k + 1) h1 (by omega)
    · simp [open_next_deep k d h1]

theorem checkValidLoop_closes (d : Nat) (m : Nat) :
    ∀ step, step = .stateBeginValueOrEmpty ∨ step = .stateEndValue →
      checkValidLoop (List.replicate (m + 1) (ch ']')) (arraysOpen step (m + 1) d) =
        (true, atEndTop d) := by
  induction m with
  | zero =>
    intro step hs
    simp [List.replicate, checkValidLoop, close_step step 0 d hs]
  | succ m ih =>
    intro step hs
    rw [List.replicate_succ, checkValidLoop, close_step step (m + 1) d hs]
    simp only [Nat.add_one_ne_zero, if_false]
    exact ih _ (Or.inr rfl)

theorem nestedArrays_zero (d : Nat) : checkValidAt d (nestedArrays 0) = false := by
  simp [checkValidAt, nestedArrays, checkValidLoop, Scanner.eof, Scanner.reset, Scanner.run,
    stateBeginValue, show isSpace (ch ' ') = true from by decide]

/-- The scanner accepts `n` arrays nested in one another, standing `d` levels
deep, exactly when there is one at least and `n + d` is within the limit. -/
theorem checkValidAt_nestedArrays (n d : Nat) :
    checkValidAt d (nestedArrays n) = decide (0 < n ∧ n + d ≤ maxNestingDepth) := by
  cases n with
  | zero => simp [nestedArrays_zero]
  | succ n =>
    have e : (scanBeginArray == scanError) = false := by decide
    simp only [checkValidAt, nestedArrays, List.replicate_succ (n := n) (a := ch '['),
      List.cons_append, checkValidLoop]
    by_cases h : n + 1 + d ≤ maxNestingDepth
    · have h1 : 1 + d ≤ maxNestingDepth := by omega
      rw [open_first d h1]
      simp only [e, Bool.false_eq_true, if_false, List.append_eq]
      rw [checkValidLoop_opens d _ n 1 (by omega), Nat.add_comm 1 n,
        checkValidLoop_closes d n _ (Or.inl rfl)]
      simp [Scanner.eof, atEndTop, h]
    · by_cases h1 : 1 + d ≤ maxNestingDepth
      · rw [open_first d h1]
        simp only [e, Bool.false_eq_true, if_false, List.append_eq]
        rw [checkValidLoop_opens_deep d _ n 1 h1 (by omega)]
        simp [h]
      · simp [open_first_deep d h1, h]

theorem compactKeepsFrom_brackets (b : UInt8) (hb : b = ch '[' ∨ b = ch ']') (rest : Bytes)
    (h : compactKeepsFrom .outside rest = true) (m : Nat) :
    compactKeepsFrom .outside (List.replicate m b ++ rest) = true := by
  induction m with
  | zero => exact h
  | succ m ih =>
    rw [List.replicate_succ, List.cons_append, compactKeepsFrom]
    rcases hb with hb | hb <;> subst hb
    · have e : StringPos.next .outside (ch '[') = .outside := by decide
      rw [e, ih]
      have e2 : (ch '[' == 0xE2) = false := by decide
      have e3 : isSpace (ch '[') = false := by decide
      have e4 : (ch '[' != ch '<' && ch '[' != ch '>' && ch '[' != ch '&') = true := by decide
      simp only [Bool.and_eq_true] at e4
      simp [e2, e3, e4]
    · have e : StringPos.next .outside (ch ']') = .outside := by decide
      rw [e, ih]
      have e2 : (ch ']' == 0xE2) = false := by decide
      have e3 : isSpace (ch ']') = false := by decide
      have e4 : (ch ']' != ch '<' && ch ']' != ch '>' && ch ']' != ch '&') = true := by decide
      simp only [Bool.and_eq_true] at e4
      simp [e2, e3, e4]

theorem compactKeeps_nestedArrays (n : Nat) : compactKeeps (nestedArrays n) = true := by
  have h := compactKeepsFrom_brackets (ch ']') (Or.inr rfl) [] rfl n
  rw [List.append_nil] at h
  exact compactKeepsFrom_brackets (ch '[') (Or.inl rfl) _ h n

/-- What `Marshal` makes of `n` arrays nested in one another, as a raw message
standing `d` levels deep: the text itself when `n + d` is within the limit,
an error when it is not. -/
theorem appendCompact_nestedArrays (n d : Nat) :
    appendCompact (nestedArrays n) true d =
      if 0 < n ∧ n + d ≤ maxNestingDepth then some (nestedArrays n) else none := by
  have hv := checkValidAt_nestedArrays n d
  split
  · next h =>
    rw [decide_eq_true h] at hv
    exact appendCompact_keeps _ d hv (compactKeeps_nestedArrays n)
  · next h =>
    rw [decide_eq_false h] at hv
    have hs := appendCompact_isSome (nestedArrays n) true d
    rw [hv] at hs
    cases ha : appendCompact (nestedArrays n) true d with
    | none => rfl
    | some t => simp [ha] at hs


/-! ### models.list -/

theorem ListModels_of_response (env : Env) (c : LMStudioClient) (status : Nat) (body : Bytes)
    (hreq : env.newRequestErr (utf8 "GET") (c.BaseURL ++ utf8 "/api/v0/models") = none)
    (hdo : env.httpDo (utf8 "GET") (c.BaseURL ++ utf8 "/api/v0/models") [] =
      .ok ⟨status, body, none⟩) :
    ListModels env c =
      ⟨body, status, none, [.httpDo (utf8 "GET") (c.BaseURL ++ utf8 "/api/v0/models") []]⟩ := by
  simp [ListModels, hreq, hdo]

theorem encodeResponse_list (status : Nat) (body : Bytes) :
    encodeResponse ⟨true, [], some (.make [(utf8 "http_status", .int status),
        (utf8 "models", .rawMessage body)])⟩ =
      (appendCompact body true dataDepth).map fun t =>
        ⟨true, none, some (.obj [(utf8 "http_status", .num status), (utf8 "models", .raw t)])⟩ := by
  have hk : bytesLt (utf8 "models") (utf8 "http_status") = false := by decide
  cases h : appendCompact body true dataDepth <;>
    simp [encodeResponse, sortEntries, insertEntry, hk, encodeEntries, encodeValue, h]

theorem onListModels_of_response (env : Env) (c : LMStudioClient) (files : FS)
    (payload : Bytes) (status : Nat) (body : Bytes)
    (hreq : env.newRequestErr (utf8 "GET") (c.BaseURL ++ utf8 "/api/v0/models") = none)
    (hdo : env.httpDo (utf8 "GET") (c.BaseURL ++ utf8 "/api/v0/models") [] =
      .ok ⟨status, body, none⟩) :
    replies (onListModels env c files payload).events =
      [match appendCompact body true dataDepth with
        | some t => Wire.render ⟨true, none,
            some (.obj [(utf8 "http_status", .num status), (utf8 "models", .raw t)])⟩
        | none => fallbackReply] := by
  simp only [onListModels, ListModels_of_response env c status body hreq hdo, replies_append,
    replies_respondJSON, jsonMarshal, encodeResponse_list]
  cases h : appendCompact body true dataDepth <;> simp [replies]

theorem render_list (status : Nat) (t : Bytes) :
    Wire.render ⟨true, none,
        some (.obj [(utf8 "http_status", .num status), (utf8 "models", .raw t)])⟩ =
      utf8 "\x7b\"ok\":true,\"data\":\x7b\"http_status\":" ++ itoa status ++
        utf8 ",\"models\":" ++ t ++ utf8 "\x7d\x7d" := by
  have h1 : utf8 "\x7b\"ok\":true,\"data\":\x7b\"http_status\":" =
      ch '{' :: (utf8 "\"ok\":" ++ (utf8 "true" ++ (utf8 ",\"data\":" ++
        ch '{' :: (appendString (utf8 "http_status") ++ [ch ':'])))) := by decide
  have h2 : utf8 ",\"models\":" = ch ',' :: (appendString (utf8 "models") ++ [ch ':']) := by
    decide
  have h3 : utf8 "\x7d\x7d" = [ch '}', ch '}'] := by decide
  rw [h1, h2, h3]
  simp [Wire.render, JData.render, renderMembers, JScalar.render]

/-- What `models.list` replies when the daemon answers with `n` arrays nested
in one another: the envelope with the body as it is when `n` is at least 1 and
at most `maxNestingDepth - 2`, and the fallback when it is not; a body of 9999
arrays, valid JSON on its own, is answered with the fallback. -/
theorem onListModels_nestedArrays (env : Env) (c : LMStudioClient) (files : FS)
    (payload : Bytes) (status : Nat) (n : Nat)
    (hreq : env.newRequestErr (utf8 "GET") (c.BaseURL ++ utf8 "/api/v0/models") = none)
    (hdo : env.httpDo (utf8 "GET") (c.BaseURL ++ utf8 "/api/v0/models") [] =
      .ok ⟨status, nestedArrays n, none⟩) :
    replies (onListModels env c files payload).events =
      [if 0 < n ∧ n + 2 ≤ maxNestingDepth then
        utf8 "\x7b\"ok\":true,\"data\":\x7b\"http_status\":" ++ itoa status ++
          utf8 ",\"models\":" ++ nestedArrays n ++ utf8 "\x7d\x7d"
      else fallbackReply] := by
  rw [onListModels_of_response env c files payload status _ hreq hdo,
    appendCompact_nestedArrays n dataDepth]
  have e : dataDepth = 2 := rfl
  rw [e]
  by_cases h : 0 < n ∧ n + 2 ≤ maxNestingDepth
  · simp only [if_pos h, render_list]
  · simp only [if_neg h]

/-- C8 (amended): when the daemon answers the model-listing request with a
body that `json.Marshal` accepts as a raw message in the `data` map of the
envelope (valid JSON that, standing two levels deep, keeps the reply within
the nesting limit of 10000: it nests at most 9998 deep) and that holds no byte
`json.Marshal` rewrites or drops in a `json.RawMessage` (no white space
outside of its string literals, no `<`, `>`, `&`, no U+2028 or U+2029), the
`data.models` member of the single reply is that body byte for byte: the
reply is `{"ok":true,"data":{"http_status":`, the status, `,"models":`, the
body, `}}`. -/
theorem C8_models_passthrough (env : Env) (c : LMStudioClient) (files : FS) (payload : Bytes)
    (status : Nat) (body : Bytes)
    (hreq : env.newRequestErr (utf8 "GET") (c.BaseURL ++ utf8 "/api/v0/models") = none)
    (hdo : env.httpDo (utf8 "GET") (c.BaseURL ++ utf8 "/api/v0/models") [] =
      .ok ⟨status, body, none⟩)
    (hvalid : checkValidAt dataDepth body = true)
    (hkeeps : compactKeeps body = true) :
    replies (onListModels env c files payload).events =
      [utf8 "\x7b\"ok\":true,\"data\":\x7b\"http_status\":" ++ itoa status ++
        utf8 ",\"models\":" ++ body ++ utf8 "\x7d\x7d"] := by
  rw [onListModels_of_response env c files payload status body hreq hdo,
    appendCompact_keeps body dataDepth hvalid hkeeps, ← render_list]

/-- C9 (amended): whatever status and body the daemon returns to the
model-listing request, `ListModels` returns them with no error. When the body
is JSON that `json.Marshal` accepts as a raw message in the `data` map of the
envelope (valid JSON that, standing two levels deep, keeps the reply within
the nesting limit of 10000: it nests at most 9998 deep), the single reply is
`ok=true` with `data.http_status` the status and `data.models` the compacted
body, at every status. When the body is not valid JSON, or is not accepted
where it stands, the single reply is the hardcoded fallback `ok=false`
envelope. -/
theorem C9_list_status_passthrough (env : Env) (c : LMStudioClient) (files : FS)
    (payload : Bytes) (status : Nat) (body : Bytes)
    (hreq : env.newRequestErr (utf8 "GET") (c.BaseURL ++ utf8 "/api/v0/models") = none)
    (hdo : env.httpDo (utf8 "GET") (c.BaseURL ++ utf8 "/api/v0/models") [] =
      .ok ⟨status, body, none⟩) :
    ((ListModels env c).data = body ∧ (ListModels env c).status = status ∧
      (ListModels env c).err = none) ∧
    (checkValidAt dataDepth body = true →
      ∃ t, appendCompact body true dataDepth = some t ∧
        (onListModels env c files payload).RepliedWith
          ⟨true, none, some (.obj [(utf8 "http_status", .num status), (utf8 "models", .raw t)])⟩) ∧
    (checkValid body = false ∨ checkValidAt dataDepth body = false →
      replies (onListModels env c files payload).events = [fallbackReply]) := by
  have hr := onListModels_of_response env c files payload status body hreq hdo
  have hs := appendCompact_isSome body true dataDepth
  refine ⟨by simp [ListModels_of_response env c status body hreq hdo], ?_, ?_⟩
  · intro hv
    rw [hv] at hs
    obtain ⟨t, ht⟩ := Option.isSome_iff_exists.mp hs
    exact ⟨t, ht, by rw [Outcome.RepliedWith, hr, ht]⟩
  · intro hv
    have hv2 : checkValidAt dataDepth body = false := by
      rcases hv with hv | hv
      · cases h : checkValidAt dataDepth body with
        | false => rfl
        | true => rw [checkValidAt_checkValid dataDepth body h] at hv; cases hv
      · exact hv
    rw [hv2] at hs
    have hn : appendCompact body true dataDepth = none := by
      cases h : appendCompact body true dataDepth with
      | none => rfl
      | some t => simp [h] at hs
    rw [hr, hn]


/-- C8, witness: the daemon answers `{"data":[{"id":"my model"}]}`, a body
with a space inside a string literal, with status 200; and it answers 9998
arrays nested in one another, the deepest body the envelope takes. -/
theorem C8_models_passthrough_witness :
    replies (onListModels (listEnv namedListBody) stubClient emptyFS
        []).events =
      [utf8 "\x7b\"ok\":true,\"data\":\x7b\"http_status\":" ++ itoa 200 ++
        utf8 ",\"models\":" ++ namedListBody ++ utf8 "\x7d\x7d"] ∧
    replies (onListModels (listEnv (nestedArrays 9998)) stubClient emptyFS
        []).events =
      [utf8 "\x7b\"ok\":true,\"data\":\x7b\"http_status\":" ++ itoa 200 ++
        utf8 ",\"models\":" ++ nestedArrays 9998 ++ utf8 "\x7d\x7d"] :=
  ⟨C8_models_passthrough (listEnv namedListBody) stubClient emptyFS []
      200 namedListBody (by decide) (by decide) (by decide) (by decide),
    C8_models_passthrough (listEnv (nestedArrays 9998)) stubClient emptyFS []
      200 (nestedArrays 9998) rfl rfl
      ((checkValidAt_nestedArrays 9998 dataDepth).trans (by decide))
      (compactKeeps_nestedArrays 9998)⟩

/-- C8, counterexample: the daemon answers the valid JSON body
`{"data": [], "note": "a<b"}`; the `models` member of the reply is
`{"data":[],"note":"a\u003cb"}`, without the spaces and with `<` escaped. -/
theorem C8_counterexample_compacted :
    checkValid spacedListBody = true ∧
    (ListModels (listEnv spacedListBody) stubClient).data =
      spacedListBody ∧
    (ListModels (listEnv spacedListBody) stubClient).err = none ∧
    replies (onListModels (listEnv spacedListBody) stubClient emptyFS
        []).events =
      [utf8 "\x7b\"ok\":true,\"data\":\x7b\"http_status\":200,\"models\":" ++
        utf8 "\x7b\"data\":[],\"note\":\"a\\u003cb\"\x7d" ++ utf8 "\x7d\x7d"] ∧
    utf8 "\x7b\"data\":[],\"note\":\"a\\u003cb\"\x7d" ≠ spacedListBody := by
  decide

/-- The reply to a daemon that answers the listing request with status 404 and
the JSON body `{"error": "model listing is disabled"}`: `ok=true`, the status
passed through, the body compacted. -/
theorem onListModels_status_404 :
    replies (onListModels (statusEnv 404 errorListBody) stubClient emptyFS
        []).events =
      [utf8 "\x7b\"ok\":true,\"data\":\x7b\"http_status\":404,\"models\":" ++
        utf8 "\x7b\"error\":\"model listing is disabled\"\x7d" ++ utf8 "\x7d\x7d"] := by
  decide

/-- C9, witness: a daemon answering 200 with `{"data": [], "note": "a<b"}`; a
daemon answering 404 with the JSON body `{"error": "model listing is
disabled"}`, replied `ok=true` with `http_status` 404; a daemon answering 404
with `Not Found`, which is not JSON; and a daemon answering 200 with 9999
arrays nested in one another, one more than the envelope takes. -/
theorem C9_list_status_passthrough_witness :
    (∃ t, appendCompact spacedListBody true dataDepth = some t ∧
      (onListModels (listEnv spacedListBody) stubClient emptyFS
          []).RepliedWith
        ⟨true, none, some (.obj [(utf8 "http_status", .num 200), (utf8 "models", .raw t)])⟩) ∧
    (∃ t, appendCompact errorListBody true dataDepth = some t ∧
      (onListModels (statusEnv 404 errorListBody) stubClient emptyFS
          []).RepliedWith
        ⟨true, none, some (.obj [(utf8 "http_status", .num 404), (utf8 "models", .raw t)])⟩) ∧
    replies (onListModels bareEnv stubClient emptyFS []).events =
      [fallbackReply] ∧
    replies (onListModels (statusEnv 200 (nestedArrays 9999)) stubClient emptyFS
        []).events =
      [fallbackReply] :=
  ⟨(C9_list_status_passthrough (listEnv spacedListBody) stubClient
      emptyFS [] 200 spacedListBody (by decide) (by decide)).2.1 (by decide),
    (C9_list_status_passthrough (statusEnv 404 errorListBody) stubClient
      emptyFS [] 404 errorListBody (by decide) (by decide)).2.1 (by decide),
    (C9_list_status_passthrough bareEnv stubClient emptyFS [] 404
      (utf8 "Not Found") (by decide) (by decide)).2.2 (Or.inl (by decide)),
    (C9_list_status_passthrough (statusEnv 200 (nestedArrays 9999)) stubClient
      emptyFS [] 200 (nestedArrays 9999) rfl rfl).2.2
      (Or.inr ((checkValidAt_nestedArrays 9999 dataDepth).trans (by decide)))⟩

/-- C9, counterexample: the daemon answers the listing request with status 404
and the body `Not Found`. The request was sent and the body was read
(`ListModels` returns both with no error), yet the reply is the fallback
`{"ok":false,"error":"internal error serializing response"}`. -/
theorem C9_counterexample_body_not_json :
    (ListModels bareEnv stubClient).data = utf8 "Not Found" ∧
    (ListModels bareEnv stubClient).status = 404 ∧
    (ListModels bareEnv stubClient).err = none ∧
    (ListModels bareEnv stubClient).events =
      [.httpDo (utf8 "GET") stubListURL []] ∧
    replies (onListModels bareEnv stubClient emptyFS []).events =
      [utf8 "\x7b\"ok\":false,\"error\":\"internal error serializing response\"\x7d"] := by
  decide

/-! ### filepath.Clean on paths without `..` -/

theorem splitSlash_eq (s : Bytes) :
    splitSlash s = s.takeWhile (fun x => !isPathSeparator x) ::
      (match s.dropWhile (fun x => !isPathSeparator x) with
        | [] => []
        | _ :: r => splitSlash r) := by
  induction s with
  | nil => rfl
  | cons b s ih =>
    by_cases hb : isPathSeparator b = true
    · simp [splitSlash, hb]
    · have hb : isPathSeparator b = false := by simpa using hb
      rw [splitSlash]
      simp only [hb, Bool.false_eq_true, if_false]
      rw [ih]
      simp [hb]

theorem cleanLoop_fuel_succ (rooted : Bool) :
    ∀ (fuel : Nat) (rest out : Bytes) (dotdot : Nat), rest.length ≤ fuel →
      cleanLoop rooted (fuel + 1) rest out dotdot = cleanLoop rooted fuel rest out dotdot := by
  intro fuel
  induction fuel with
  | zero =>
    intro rest out dotdot h
    have : rest = [] := List.length_eq_zero.mp (Nat.le_zero.mp h)
    subst this
    simp [cleanLoop]
  | succ fuel ih =>
    intro rest out dotdot h
    cases rest with
    | nil => simp [cleanLoop]
    | cons b rest =>
      have hl : rest.length ≤ fuel := by simpa using h
      have hl1 : (rest.drop 1).length ≤ fuel := by
        simp only [List.length_drop]
        omega
      by_cases hb : isPathSeparator b = true
      · simp only [cleanLoop, hb, if_true]
        exact ih _ _ _ hl
      · have hb : isPathSeparator b = false := by simpa using hb
        have hl2 : ((b :: rest).dropWhile fun x => !isPathSeparator x).length ≤ fuel := by
          simp only [List.dropWhile_cons, hb, Bool.not_false, if_true]
          exact le_trans (List.dropWhile_sublist _).length_le hl
        simp only [cleanLoop, ih _ _ _ hl, ih _ _ _ hl1, ih _ _ _ hl2]

theorem cleanLoop_fuel (rooted : Bool) (rest out : Bytes) (dotdot : Nat) :
    ∀ fuel, rest.length ≤ fuel →
      cleanLoop rooted fuel rest out dotdot = cleanLoop rooted rest.length rest out dotdot := by
  intro fuel h
  induction fuel with
  | zero =>
    have : rest.length = 0 := Nat.le_zero.mp h
    rw [this]
  | succ fuel ih =>
    by_cases h2 : rest.length ≤ fuel
    · rw [cleanLoop_fuel_succ rooted fuel rest out dotdot h2, ih h2]
    · have : rest.length = fuel + 1 := by omega
      rw [this]

theorem splitSlash_ne_nil (s : Bytes) : splitSlash s ≠ [] := by
  rw [splitSlash_eq]
  simp

theorem splitSlash_sep (b : UInt8) (s : Bytes) (hb : isPathSeparator b = true) :
    splitSlash (b :: s) = [] :: splitSlash s := by
  simp [splitSlash, hb]

/-- The elements of the rest of a path after its first element. -/
theorem splitSlash_dropWhile (s : Bytes) :
    splitSlash (s.dropWhile fun x => !isPathSeparator x) =
      [] :: (splitSlash s).tail := by
  rw [splitSlash_eq s]
  simp only [List.tail_cons]
  cases h : s.dropWhile (fun x => !isPathSeparator x) with
  | nil => rfl
  | cons c r =>
    have hc : isPathSeparator c = true := by
      have := List.head_dropWhile_not (fun x => !isPathSeparator x) s (by simp [h])
      simpa [h] using this
    exact splitSlash_sep c r hc

theorem dot_not_sep : isPathSeparator (ch '.') = false := by decide

theorem elem_dot (b : UInt8) (rest : Bytes)
    (h : (b == ch '.' && (rest.isEmpty || isPathSeparator (rest.headD 0))) = true) :
    (b :: rest).takeWhile (fun x => !isPathSeparator x) = [ch '.'] ∧
      (b :: rest).dropWhile (fun x => !isPathSeparator x) = rest := by
  simp only [Bool.and_eq_true, beq_iff_eq, Bool.or_eq_true] at h
  obtain ⟨rfl, h⟩ := h
  cases rest with
  | nil => simp [dot_not_sep]
  | cons c r =>
    have hc : isPathSeparator c = true := by simpa using h
    simp [dot_not_sep, hc]

theorem elem_dotdot (b : UInt8) (rest : Bytes)
    (h : (b == ch '.' && rest.headD 0 == ch '.' &&
      ((rest.drop 1).isEmpty || isPathSeparator ((rest.drop 1).headD 0))) = true) :
    (b :: rest).takeWhile (fun x => !isPathSeparator x) = [ch '.', ch '.'] ∧
      (b :: rest).dropWhile (fun x => !isPathSeparator x) = rest.drop 1 := by
  simp only [Bool.and_eq_true, beq_iff_eq, Bool.or_eq_true] at h
  obtain ⟨⟨rfl, h1⟩, h⟩ := h
  cases rest with
  | nil => exact absurd h1 (by decide)
  | cons c r =>
    have hc : c = ch '.' := by simpa using h1
    subst hc
    cases r with
    | nil => simp [dot_not_sep]
    | cons d r =>
      have hd : isPathSeparator d = true := by simpa using h
      simp [dot_not_sep, hd]

theorem elem_name (b : UInt8) (rest : Bytes) (hb : isPathSeparator b = false)
    (h1 : (b == ch '.' && (rest.isEmpty || isPathSeparator (rest.headD 0))) = false)
    (h2 : (b == ch '.' && rest.headD 0 == ch '.' &&
      ((rest.drop 1).isEmpty || isPathSeparator ((rest.drop 1).headD 0))) = false) :
    (b :: rest).takeWhile (fun x => !isPathSeparator x) ≠ [] ∧
      (b :: rest).takeWhile (fun x => !isPathSeparator x) ≠ [ch '.'] ∧
      (b :: rest).takeWhile (fun x => !isPathSeparator x) ≠ [ch '.', ch '.'] := by
  refine ⟨by simp [hb], ?_, ?_⟩
  · intro h
    simp only [List.takeWhile_cons, hb, Bool.not_false, if_true, List.cons.injEq] at h
    obtain ⟨rfl, h⟩ := h
    cases rest with
    | nil => simp at h1
    | cons c r =>
      by_cases hc : isPathSeparator c = true
      · simp [hc] at h1
      · simp [hc] at h
  · intro h
    simp only [List.takeWhile_cons, hb, Bool.not_false, if_true, List.cons.injEq] at h
    obtain ⟨rfl, h⟩ := h
    cases rest with
    | nil => simp at h
    | cons c r =>
      by_cases hc : isPathSeparator c = true
      · simp [hc] at h
      · have hc2 : isPathSeparator c = false := by simpa using hc
        simp only [List.takeWhile_cons, hc2, Bool.not_false, if_true, List.cons.injEq] at h
        obtain ⟨rfl, h⟩ := h
        cases r with
        | nil => simp at h2
        | cons d r =>
          by_cases hd : isPathSeparator d = true
          · simp [hd] at h2
          · simp [hd] at h

theorem cleanElems_cons (rooted : Bool) (e : Bytes) (es : List Bytes) (st : Bytes × Nat) :
    cleanElems rooted (e :: es) st = cleanElems rooted es (cleanElem rooted st e) := rfl

theorem cleanElems_append (rooted : Bool) (es fs : List Bytes) (st : Bytes × Nat) :
    cleanElems rooted (es ++ fs) st = cleanElems rooted fs (cleanElems rooted es st) := by
  simp [cleanElems]

theorem cleanElem_nil (rooted : Bool) (st : Bytes × Nat) : cleanElem rooted st [] = st := by
  simp [cleanElem]

theorem cleanElem_dot (rooted : Bool) (st : Bytes × Nat) : cleanElem rooted st [ch '.'] = st := by
  simp [cleanElem]

theorem splitSlash_head_tail (s : Bytes) :
    splitSlash s = s.takeWhile (fun x => !isPathSeparator x) :: (splitSlash s).tail := by
  conv_lhs => rw [splitSlash_eq]
  rw [splitSlash_eq]
  rfl

/-- The byte loop of `Clean` does to its state what the element-wise
description says, for the elements of the path in order. -/
theorem cleanLoop_eq_cleanElems (rooted : Bool) :
    ∀ (fuel : Nat) (s out : Bytes) (dotdot : Nat), s.length ≤ fuel →
      cleanLoop rooted fuel s out dotdot =
        (cleanElems rooted (splitSlash s) (out, dotdot)).1 := by
  intro fuel
  induction fuel with
  | zero =>
    intro s out dotdot h
    have : s = [] := List.length_eq_zero.mp (Nat.le_zero.mp h)
    subst this
    simp [cleanLoop, splitSlash, cleanElems, cleanElem]
  | succ fuel ih =>
    intro s out dotdot h
    cases s with
    | nil => simp [cleanLoop, splitSlash, cleanElems, cleanElem]
    | cons b rest =>
      have hl : rest.length ≤ fuel := by simpa using h
      by_cases hb : isPathSeparator b = true
      · rw [cleanLoop]
        simp only [hb, if_true]
        rw [ih _ _ _ hl, splitSlash_sep b rest hb, cleanElems_cons, cleanElem_nil]
      · have hb : isPathSeparator b = false := by simpa using hb
        obtain ⟨tl, hsplit, hdrop⟩ : ∃ tl,
            splitSlash (b :: rest) = (b :: rest).takeWhile (fun x => !isPathSeparator x) :: tl ∧
            splitSlash ((b :: rest).dropWhile fun x => !isPathSeparator x) = [] :: tl :=
          ⟨_, splitSlash_head_tail _, splitSlash_dropWhile _⟩
        have hl2 : ((b :: rest).dropWhile fun x => !isPathSeparator x).length ≤ fuel := by
          simp only [List.dropWhile_cons, hb, Bool.not_false, if_true]
          exact le_trans (List.dropWhile_sublist _).length_le hl
        rw [cleanLoop]
        simp only [hb, Bool.false_eq_true, if_false]
        by_cases h1 : (b == ch '.' && (rest.isEmpty || isPathSeparator (rest.headD 0))) = true
        · obtain ⟨he, hd⟩ := elem_dot b rest h1
          simp only [h1, if_true]
          rw [hd] at hdrop
          rw [ih _ _ _ hl, hdrop, hsplit, he, cleanElems_cons, cleanElems_cons, cleanElem_nil,
            cleanElem_dot]
        · have h1 : (b == ch '.' && (rest.isEmpty || isPathSeparator (rest.headD 0))) = false := by
            simpa using h1
          simp only [h1, Bool.false_eq_true, if_false]
          by_cases h2 : (b == ch '.' && rest.headD 0 == ch '.' &&
              ((rest.drop 1).isEmpty || isPathSeparator ((rest.drop 1).headD 0))) = true
          · obtain ⟨he, hd⟩ := elem_dotdot b rest h2
            have hl1 : (rest.drop 1).length ≤ fuel := by
              simp only [List.length_drop]
              omega
            simp only [h2, if_true]
            rw [hd] at hdrop
            rw [hsplit, he, cleanElems_cons]
            have hce : cleanElem rooted (out, dotdot) [ch '.', ch '.'] =
                (if out.length > dotdot then (cleanBacktrack dotdot out, dotdot)
                  else if !rooted then
                    (ch '.' :: ch '.' :: (if out.length > 0 then ch '/' :: out else out),
                      (ch '.' :: ch '.' :: (if out.length > 0 then ch '/' :: out else out)).length)
                  else (out, dotdot)) := by
              have : ([ch '.', ch '.'] == ([] : Bytes) || [ch '.', ch '.'] == [ch '.']) = false := by
                decide
              simp [cleanElem, this]
            rw [hce]
            split
            · rw [ih _ _ _ hl1, hdrop, cleanElems_cons, cleanElem_nil]
            · split
              · rw [ih _ _ _ hl1, hdrop, cleanElems_cons, cleanElem_nil]
              · rw [ih _ _ _ hl1, hdrop, cleanElems_cons, cleanElem_nil]
          · have h2 : (b == ch '.' && rest.headD 0 == ch '.' &&
                ((rest.drop 1).isEmpty || isPathSeparator ((rest.drop 1).headD 0))) = false := by
              simpa using h2
            obtain ⟨n1, n2, n3⟩ := elem_name b rest hb h1 h2
            simp only [h2, Bool.false_eq_true, if_false]
            rw [ih _ _ _ hl2, hdrop, cleanElems_cons, cleanElem_nil]
            conv_rhs => rw [hsplit, cleanElems_cons]
            have hce : cleanElem rooted (out, dotdot)
                ((b :: rest).takeWhile fun x => !isPathSeparator x) =
                (cleanAppend rooted out ((b :: rest).takeWhile fun x => !isPathSeparator x),
                  dotdot) := by
              simp [cleanElem, n1, n2, n3]
            rw [hce]
            rfl

theorem Clean_eq_cleanElems (b : UInt8) (p : Bytes) :
    Clean (b :: p) = cleanFinish
      (cleanElems (isPathSeparator b) (splitSlash (b :: p)) (cleanInit (isPathSeparator b))).1 := by
  by_cases hb : isPathSeparator b = true
  · simp only [Clean, hb, if_true, cleanInit, cleanFinish, List.drop_succ_cons, List.drop_zero]
    rw [cleanLoop_eq_cleanElems true _ p _ _ (by simp), splitSlash_sep b p hb, cleanElems_cons,
      cleanElem_nil]
  · have hb : isPathSeparator b = false := by simpa using hb
    simp only [Clean, hb, Bool.false_eq_true, if_false, cleanInit, cleanFinish]
    rw [cleanLoop_eq_cleanElems false _ (b :: p) _ _ (le_refl _)]

theorem splitSlash_append (X Y : Bytes) :
    splitSlash (X ++ ch '/' :: Y) = splitSlash X ++ splitSlash Y := by
  induction X with
  | nil => simp [splitSlash, isPathSeparator]
  | cons b X ih =>
    by_cases hb : isPathSeparator b = true
    · simp [splitSlash, hb, ih]
    · have hb : isPathSeparator b = false := by simpa using hb
      simp only [List.cons_append, splitSlash, hb, Bool.false_eq_true, if_false, ih]
      cases h : splitSlash X with
      | nil => exact absurd h (splitSlash_ne_nil X)
      | cons e es => simp [ih, h]

theorem cleanElems_plain (rooted : Bool) (es : List Bytes) :
    ∀ st : Bytes × Nat, es.contains [ch '.', ch '.'] = false →
      (cleanElems rooted es st).1 =
        cleanAppendAll rooted (es.filter fun e => e != [] && e != [ch '.']) st.1 := by
  induction es with
  | nil => intro st _; rfl
  | cons e es ih =>
    intro st h
    simp only [List.contains_cons, Bool.or_eq_false_iff] at h
    obtain ⟨h1, h2⟩ := h
    rw [cleanElems_cons, ih _ h2]
    have h1' : e ≠ [ch '.', ch '.'] := by
      intro h
      subst h
      simp at h1
    by_cases h0 : e = []
    · subst h0
      simp [cleanElem, List.filter_cons]
    · by_cases hd : e = [ch '.']
      · subst hd
        simp [cleanElem, List.filter_cons]
      · simp [cleanElem, h0, hd, h1', List.filter_cons, cleanAppendAll]

theorem cleanAppend_needsSep (rooted : Bool) (out e : Bytes) (he : e ≠ []) :
    NeedsSep rooted (cleanAppend rooted out e) := by
  have hl : 1 ≤ e.length := List.length_pos.mpr he
  cases rooted
  · constructor
    · intro h; cases h
    · intro _
      simp only [cleanAppend, List.length_append, List.length_reverse]
      omega
  · constructor
    · intro _
      simp only [cleanAppend, Bool.true_and, Bool.not_true, Bool.false_and, Bool.or_false,
        List.length_append, List.length_reverse]
      split
      · simp only [List.length_cons]
        omega
      · next h =>
        have : out.length = 1 := by simpa using h
        omega
    · intro h; cases h

theorem cleanAppend_of_needsSep (rooted : Bool) (out e : Bytes) (h : NeedsSep rooted out) :
    cleanAppend rooted out e = e.reverse ++ ch '/' :: out := by
  obtain ⟨h1, h2⟩ := h
  cases rooted
  · have := h2 rfl
    have hne : (out.length != 0) = true := by simp only [bne_iff_ne, ne_eq]; omega
    simp [cleanAppend, hne]
  · have := h1 rfl
    have hne : (out.length != 1) = true := by simp only [bne_iff_ne, ne_eq]; omega
    simp [cleanAppend, hne]

theorem cleanAppendAll_needsSep (rooted : Bool) (es : List Bytes) :
    ∀ out : Bytes, (∀ e ∈ es, e ≠ []) → (es ≠ [] ∨ NeedsSep rooted out) →
      NeedsSep rooted (cleanAppendAll rooted es out) := by
  induction es with
  | nil =>
    intro out _ h
    rcases h with h | h
    · exact absurd rfl h
    · exact h
  | cons e es ih =>
    intro out hne _
    exact ih _ (fun x hx => hne x (List.mem_cons_of_mem _ hx))
      (Or.inr (cleanAppend_needsSep rooted out e (hne e (List.mem_cons_self _ _))))

theorem cleanAppendAll_reverse (rooted : Bool) (es : List Bytes) :
    ∀ out : Bytes, (∀ e ∈ es, e ≠ []) → es ≠ [] → NeedsSep rooted out →
      (cleanAppendAll rooted es out).reverse = out.reverse ++ ch '/' :: joinSlash es := by
  induction es with
  | nil => intro out _ h; exact absurd rfl h
  | cons e es ih =>
    intro out hne _ hns
    have he := hne e (List.mem_cons_self _ _)
    have hes : ∀ x ∈ es, x ≠ [] := fun x hx => hne x (List.mem_cons_of_mem _ hx)
    rw [cleanAppendAll]
    cases es with
    | nil => simp [cleanAppendAll, cleanAppend_of_needsSep rooted out e hns, joinSlash]
    | cons f fs =>
      rw [ih _ hes (by simp) (cleanAppend_needsSep rooted out e he),
        cleanAppend_of_needsSep rooted out e hns]
      simp [joinSlash]

theorem pathNames_ne_nil (p : Bytes) : ∀ e ∈ pathNames p, e ≠ [] := by
  intro e he
  simp only [pathNames, List.mem_filter, Bool.and_eq_true, bne_iff_ne, ne_eq] at he
  exact he.2.1

theorem joinSlash_names (es : List Bytes) (h : ∀ e ∈ es, e ≠ []) (hne : es ≠ [])
    (hs : ∀ e ∈ es, ch '/' ∉ e) :
    joinSlash es ≠ [] ∧ (joinSlash es).head? ≠ some (ch '/') := by
  cases es with
  | nil => exact absurd rfl hne
  | cons e es =>
    have he := h e (List.mem_cons_self _ _)
    have hse := hs e (List.mem_cons_self _ _)
    cases e with
    | nil => exact absurd rfl he
    | cons b e =>
      have hb : b ≠ ch '/' := fun hb => hse (by simp [hb])
      cases es with
      | nil => simp [joinSlash, hb]
      | cons f fs => simp [joinSlash, hb]

theorem splitSlash_no_sep (s : Bytes) : ∀ e ∈ splitSlash s, ch '/' ∉ e := by
  induction s with
  | nil => simp [splitSlash]
  | cons b s ih =>
    by_cases hb : isPathSeparator b = true
    · simp only [splitSlash, hb, if_true, List.mem_cons]
      rintro e (rfl | he)
      · simp
      · exact ih e he
    · have hb : isPathSeparator b = false := by simpa using hb
      have hb2 : ch '/' ≠ b := by
        intro h
        rw [← h] at hb
        revert hb
        decide
      simp only [splitSlash, hb, Bool.false_eq_true, if_false]
      cases h : splitSlash s with
      | nil => exact absurd h (splitSlash_ne_nil s)
      | cons e es =>
        rw [h] at ih
        simp only [List.mem_cons]
        rintro x (rfl | hx)
        · have := ih e (List.mem_cons_self _ _)
          simp [hb2, this]
        · exact ih x (List.mem_cons_of_mem _ hx)

/-- Joining a non-empty root, a publisher and an id that have no `..` element
and a name each gives a path strictly below the join of root and publisher. -/
theorem Join_descendant (R P I : Bytes) (hR : R ≠ []) (hP : hasDotDot P = false)
    (hI : hasDotDot I = false) (hPn : pathNames P ≠ []) (hIn : pathNames I ≠ []) :
    Join [R, P, I] = Join [R, P] ++ ch '/' :: joinSlash (pathNames I) := by
  have hR2 : (R != []) = true := by simpa using hR
  cases R with
  | nil => exact absurd rfl hR
  | cons b R =>
    have e3 : joinSlash [b :: R, P, I] = (b :: (R ++ ch '/' :: P)) ++ ch '/' :: I := by
      simp [joinSlash]
    have e2 : joinSlash [b :: R, P] = b :: (R ++ ch '/' :: P) := by simp [joinSlash]
    simp only [Join, hR2, if_true]
    rw [e3, e2, List.cons_append, Clean_eq_cleanElems, Clean_eq_cleanElems, ← List.cons_append,
      splitSlash_append, cleanElems_append]
    rw [show b :: (R ++ ch '/' :: P) = (b :: R) ++ ch '/' :: P from rfl, splitSlash_append,
      cleanElems_append]
    generalize cleanElems (isPathSeparator b) (splitSlash (b :: R)) (cleanInit (isPathSeparator b))
      = stR
    rw [cleanElems_plain _ _ _ hI, cleanElems_plain _ _ stR hP]
    have hPf : (splitSlash P).filter (fun e => e != [] && e != [ch '.']) = pathNames P := rfl
    have hIf : (splitSlash I).filter (fun e => e != [] && e != [ch '.']) = pathNames I := rfl
    rw [hPf, hIf]
    have hns : NeedsSep (isPathSeparator b)
        (cleanAppendAll (isPathSeparator b) (pathNames P) stR.1) :=
      cleanAppendAll_needsSep _ _ _ (pathNames_ne_nil P) (Or.inl hPn)
    have hlen : ∀ out : Bytes, NeedsSep (isPathSeparator b) out → cleanFinish out = out.reverse := by
      intro out h
      have : 1 ≤ out.length := by
        cases hb : isPathSeparator b
        · exact h.2 hb
        · exact le_trans (by decide) (h.1 hb)
      have hne : (out.length == 0) = false := by simp only [beq_eq_false_iff_ne, ne_eq]; omega
      simp [cleanFinish, hne]
    rw [hlen _ hns, hlen _ (cleanAppendAll_needsSep _ _ _ (pathNames_ne_nil I) (Or.inl hIn))]
    exact cleanAppendAll_reverse _ _ _ (pathNames_ne_nil I) hIn hns


/-- C10 (amended): for a client with a non-empty models root and a non-empty
requested model ID, when the daemon has answered with a model info from which
the publisher is resolved, every directory `DeleteModel` hands to
`os.RemoveAll` is `filepath.Join(ModelsDir, publisher, info.ID)`; and when
neither the publisher nor the reported id has a `..` element and each has at
least one element other than the empty one and `.`, that directory is the
publisher directory `filepath.Join(ModelsDir, publisher)` followed by a slash
and a non-empty relative path, hence strictly below it. -/
theorem C10_removal_confined (env : Env) (c : LMStudioClient) (files : FS) (m : Bytes)
    (info : ModelInfo) (publisher : Bytes) (hm : m ≠ [])
    (hinfo : (getModelInfo env c m).info = .ok info)
    (hpub : info.ResolvesPublisher publisher)
    (hroot : c.ModelsDir ≠ []) :
    ∀ dir ∈ removals (DeleteModel env c files m).events,
      dir = Join [c.ModelsDir, publisher, info.ID] ∧
      (hasDotDot publisher = false → hasDotDot info.ID = false →
        pathNames publisher ≠ [] → pathNames info.ID ≠ [] →
        IsProperDescendant (Join [c.ModelsDir, publisher]) dir) := by
  obtain ⟨pre, _, hr, hD⟩ := DeleteModel_resolved env c files m info publisher hm hinfo hpub
  intro dir hdir
  have hd : dir = Join [c.ModelsDir, publisher, info.ID] := by
    rw [hD] at hdir
    revert hdir
    repeat' split
    all_goals simp [removals_append, hr, removals]
  refine ⟨hd, fun hP hI hPn hIn => ?_⟩
  have hsep : ∀ e ∈ pathNames info.ID, ch '/' ∉ e := by
    intro e he
    simp only [pathNames, List.mem_filter] at he
    exact splitSlash_no_sep _ e he.1
  obtain ⟨t1, t2⟩ := joinSlash_names (pathNames info.ID) (pathNames_ne_nil _) hIn hsep
  exact ⟨joinSlash (pathNames info.ID), t1, t2,
    hd.trans (Join_descendant _ _ _ hroot hP hI hPn hIn)⟩

/-- C10, witness: the daemon reports `{id:"acme/foo", publisher:"acme"}` and
`/models/acme/acme/foo` exists; it is removed, and it lies below `/models/acme`. -/
theorem C10_removal_confined_witness :
    utf8 "/models/acme/acme/foo" ∈ removals (DeleteModel
      (acmeEnv deleteAcmeFoo (utf8 "acme/foo")) stubClient
      (onlyFS (utf8 "/models/acme/acme/foo")) (utf8 "acme/foo")).events ∧
    utf8 "/models/acme/acme/foo" = Join [stubClient.ModelsDir, utf8 "acme", utf8 "acme/foo"] ∧
    IsProperDescendant (Join [stubClient.ModelsDir, utf8 "acme"]) (utf8 "/models/acme/acme/foo") :=
  ⟨by decide,
    (C10_removal_confined (acmeEnv deleteAcmeFoo (utf8 "acme/foo"))
      stubClient (onlyFS (utf8 "/models/acme/acme/foo")) (utf8 "acme/foo") acmeFoo (utf8 "acme")
      (by decide) (by decide) (Or.inl ⟨by decide, by decide⟩) (by decide)
      (utf8 "/models/acme/acme/foo") (by decide)).1,
    (C10_removal_confined (acmeEnv deleteAcmeFoo (utf8 "acme/foo"))
      stubClient (onlyFS (utf8 "/models/acme/acme/foo")) (utf8 "acme/foo") acmeFoo (utf8 "acme")
      (by decide) (by decide) (Or.inl ⟨by decide, by decide⟩) (by decide)
      (utf8 "/models/acme/acme/foo") (by decide)).2
      (by decide) (by decide) (by decide) (by decide)⟩

/-- C10, counterexample: the models root is `/models` and `x` is requested.
When the daemon reports `{id:"..", publisher:"acme"}`, `DeleteModel` removes
`/models`, the models root itself; when it reports
`{id:"../../etc", publisher:"acme"}`, it removes `/etc`, outside the models
root. Neither lies below `/models/acme`. -/
theorem C10_counterexample_dotdot_id :
    stubClient.ModelsDir = utf8 "/models" ∧ utf8 "x" ≠ [] ∧
    removals (DeleteModel (acmeIdEnv (utf8 ".."))
      stubClient (onlyFS (utf8 "/models")) (utf8 "x")).events = [utf8 "/models"] ∧
    removals (DeleteModel (acmeIdEnv (utf8 "../../etc"))
      stubClient (onlyFS (utf8 "/etc")) (utf8 "x")).events = [utf8 "/etc"] ∧
    ¬ IsProperDescendant (Join [stubClient.ModelsDir, utf8 "acme"]) (utf8 "/models") ∧
    ¬ IsProperDescendant (Join [stubClient.ModelsDir, utf8 "acme"]) (utf8 "/etc") := by
  refine ⟨by decide, by decide, by decide, by decide, ?_, ?_⟩
  · rintro ⟨tail, _, _, h⟩
    have h1 := congrArg List.length h
    have h2 : (utf8 "/models").length = 7 := by decide
    have h3 : (Join [stubClient.ModelsDir, utf8 "acme"]).length = 12 := by decide
    rw [List.length_append, h2, h3] at h1
    omega
  · rintro ⟨tail, _, _, h⟩
    have h1 := congrArg List.length h
    have h2 : (utf8 "/etc").length = 4 := by decide
    have h3 : (Join [stubClient.ModelsDir, utf8 "acme"]).length = 12 := by decide
    rw [List.length_append, h2, h3] at h1
    omega

end NatsLLMStudio
